import Mathlib

/-!  Verification of the product-lookup and stock-normalisation core of the
supermarket-assistant repository (`src/tools/http_tools.py`), shallowly
embedded in Lean.  Python dicts are modelled as insertion-ordered association
lists, JSON-decoded Python numbers as `Int`/`ℚ` (`int` and `float` kept
apart, because the source distinguishes them with `isinstance`), and fallible
parsing as `Option`.  Network calls are abstracted by an explicit
`NetResult` argument handed to the function bodies, exactly where the source
receives the `requests` response or exception. -/

namespace HttpTools

/-- Python whitespace characters recognised by `str.strip()`, `float()` and the
regex class `\s` (ASCII subset; the payloads considered contain no exotic
Unicode spaces). -/
def pyWs (c : Char) : Bool :=
  c = ' ' || c = '\t' || c = '\n' || c = '\r' || c = '\x0b' || c = '\x0c'

/-- Models Python `str.strip()` (whitespace removed from both ends). -/
def pyStrip (s : String) : String :=
  String.mk (((s.toList.dropWhile (pyWs ·)).reverse.dropWhile (pyWs ·)).reverse)

/-- Models `s.replace(",", ".")` (single-character pattern, so a plain map). -/
def commaToDot (s : String) : String :=
  String.mk (s.toList.map fun c => if c = ',' then '.' else c)

/-- Models `s.replace(".", "")` (single-character pattern, so a plain filter). -/
def dropDots (s : String) : String :=
  String.mk (s.toList.filter fun c => c ≠ '.')

/-- Models Python `s.count(c)` for a single-character needle `c`. -/
def countChar (s : String) (c : Char) : Nat :=
  (s.toList.filter (fun d => d = c)).length

/-- Matches a literal character sequence at the head of the text, returning
the rest on success. -/
def matchLit : List Char → List Char → Option (List Char)
  | [], cs => some cs
  | _, [] => none
  | l :: ls, c :: cs => if c = l then matchLit ls cs else none

/-- `needle` occurs at the head of some suffix of the text. -/
def infixGo (n : List Char) : List Char → Bool
  | [] => (matchLit n []).isSome
  | c :: cs => (matchLit n (c :: cs)).isSome || infixGo n cs

/-- Models the Python substring test `needle in hay`. -/
def strIn (needle hay : String) : Bool :=
  infixGo needle.toList hay.toList

/-- ASCII lowercasing; models `str.lower` on the alphabet reachable here
(accented capitals are handled by the accent-fold table below, which maps them
straight to their lowercase base letter, matching `lower` followed by the
NFD fold of the source). -/
def lowerChar (c : Char) : Char :=
  if 'A' ≤ c ∧ c ≤ 'Z' then Char.ofNat (c.toNat + 32) else c

/-- Accent folding: models the source's `_strip_accents` (NFD normalisation
with combining marks dropped) restricted to the precomposed Portuguese /
Latin-1 letters that occur in this domain; all other characters are kept. -/
def foldAccent (c : Char) : Char :=
  if c = 'á' ∨ c = 'à' ∨ c = 'â' ∨ c = 'ã' ∨ c = 'ä' ∨
     c = 'Á' ∨ c = 'À' ∨ c = 'Â' ∨ c = 'Ã' ∨ c = 'Ä' then 'a'
  else if c = 'é' ∨ c = 'è' ∨ c = 'ê' ∨ c = 'ë' ∨
          c = 'É' ∨ c = 'È' ∨ c = 'Ê' ∨ c = 'Ë' then 'e'
  else if c = 'í' ∨ c = 'ì' ∨ c = 'î' ∨ c = 'ï' ∨
          c = 'Í' ∨ c = 'Ì' ∨ c = 'Î' ∨ c = 'Ï' then 'i'
  else if c = 'ó' ∨ c = 'ò' ∨ c = 'ô' ∨ c = 'õ' ∨ c = 'ö' ∨
          c = 'Ó' ∨ c = 'Ò' ∨ c = 'Ô' ∨ c = 'Õ' ∨ c = 'Ö' then 'o'
  else if c = 'ú' ∨ c = 'ù' ∨ c = 'û' ∨ c = 'ü' ∨
          c = 'Ú' ∨ c = 'Ù' ∨ c = 'Û' ∨ c = 'Ü' then 'u'
  else if c = 'ç' ∨ c = 'Ç' then 'c'
  else c

/-- Models the source's `_strip_accents` helper. -/
def strip_accents (s : String) : String := String.mk (s.toList.map foldAccent)

/-- The normalisation `_score` applies to both query and candidate name:
`.lower()` then `_strip_accents`. -/
def normTxt (s : String) : String := strip_accents (String.mk (s.toList.map lowerChar))

/-- Truthiness of a Python `str | None` value. -/
def pyTruthy : Option String → Bool
  | none => false
  | some s => s ≠ ""

/-- Models `(x or d)` for an optional string `x` and a default `d`. -/
def pyOr (x : Option String) (d : String) : String :=
  match x with
  | none => d
  | some s => if s = "" then d else s

/-- Models `s.rstrip("/")`. -/
def rstripSlash (s : String) : String :=
  String.mk ((s.toList.reverse.dropWhile (fun c => c = '/')).reverse)

/-- Longest prefix of characters satisfying `p`, together with the rest. -/
def takeWhileSplit (p : Char → Bool) : List Char → List Char × List Char
  | [] => ([], [])
  | c :: cs =>
      if p c then
        let t := takeWhileSplit p cs
        (c :: t.1, t.2)
      else ([], c :: cs)

/-- Value of a run of decimal digits. -/
def digitsToNat (ds : List Char) : Nat :=
  ds.foldl (fun a c => a * 10 + (c.toNat - 48)) 0

/-- Exponent tail of a Python float literal (`e`/`E` already consumed). -/
def pyExp (sgn mant : ℚ) (r : List Char) : Option ℚ :=
  let se := match r with
    | '+' :: r => ((1 : Int), r)
    | '-' :: r => ((-1 : Int), r)
    | r => ((1 : Int), r)
  let ed := takeWhileSplit (·.isDigit) se.2
  if ed.1 = [] ∨ ed.2 ≠ [] then none
  else some (sgn * mant * (10 : ℚ) ^ (se.1 * (digitsToNat ed.1 : Int)))

/-- Models Python `float(s)` on plain decimal strings: optional surrounding
whitespace, optional sign, digits with at most one dot (at least one digit in
total), optional decimal exponent.  The `inf`/`nan`/underscore/hex forms that
`float` also accepts cannot arise from the payloads considered here and are
out of the model. -/
def pyFloat? (s : String) : Option ℚ :=
  let cs := ((s.toList.dropWhile (pyWs ·)).reverse.dropWhile (pyWs ·)).reverse
  let sc := match cs with
    | '+' :: r => ((1 : ℚ), r)
    | '-' :: r => ((-1 : ℚ), r)
    | r => ((1 : ℚ), r)
  let ip := takeWhileSplit (·.isDigit) sc.2
  let fp := match ip.2 with
    | '.' :: r => takeWhileSplit (·.isDigit) r
    | r => ([], r)
  if ip.1 = [] ∧ fp.1 = [] then none
  else
    let mant : ℚ := (digitsToNat ip.1 : ℚ) + (digitsToNat fp.1 : ℚ) / (10 : ℚ) ^ fp.1.length
    match fp.2 with
    | [] => some (sc.1 * mant)
    | 'e' :: r => pyExp sc.1 mant r
    | 'E' :: r => pyExp sc.1 mant r
    | _ => none

/-- JSON-decoded Python values (the output of `json.loads` / `resp.json()`). -/
inductive JVal where
  | jnull
  | jbool (b : Bool)
  | jint (n : Int)
  | jfloat (q : ℚ)
  | jstr (s : String)
  | jarr (xs : List JVal)
  | jobj (fields : List (String × JVal))

/-- Models `d.get(k)` on an insertion-ordered dict represented as an
association list (keys are unique in any list denoting an actual dict). -/
def pyGet (d : List (String × JVal)) (k : String) : Option JVal :=
  match d with
  | [] => none
  | (a, v) :: rest => if a = k then some v else pyGet rest k

/-- Replaces the value of every entry whose key is `k`, keeping positions. -/
def replaceEntry (k : String) (v : JVal) : List (String × JVal) → List (String × JVal)
  | [] => []
  | (a, w) :: rest =>
      if a = k then (k, v) :: replaceEntry k v rest
      else (a, w) :: replaceEntry k v rest

/-- Models the dict assignment `d[k] = v`: update in place when the key exists
(keeping its position), otherwise append at the end. -/
def dictSet (d : List (String × JVal)) (k : String) (v : JVal) : List (String × JVal) :=
  if (pyGet d k).isSome then replaceEntry k v d
  else d ++ [(k, v)]

/-- `PRICE_KEYS` of `estoque_preco` (a tuple in the source; the order is the
scan order of `_extract_price`). -/
def PRICE_KEYS : List String :=
  ["vl_produto", "vl_produto_normal", "preco", "preco_venda", "valor",
   "valor_unitario", "preco_unitario", "atacadoPreco"]

/-- `STOCK_QTY_KEYS` of `estoque_preco`.  The source uses a Python `set`,
whose iteration order is unspecified (string hashing is randomised per run);
the model fixes the literal order of the source text.  Every statement proved
below either does not depend on this order or is flagged where it does. -/
def STOCK_QTY_KEYS : List String :=
  ["estoque", "qtd", "qtde", "qtd_estoque", "quantidade", "quantidade_disponivel",
   "quantidadeDisponivel", "qtdDisponivel", "qtdEstoque", "estoqueAtual", "saldo",
   "qty", "quantity", "stock", "amount", "qtd_produto", "qtd_movimentacao"]

/-- `BOOL_AVAIL_KEYS` of the source (defined there but never read afterwards). -/
def BOOL_AVAIL_KEYS : List String :=
  ["disponibilidade", "disponivel", "available", "in_stock", "em_estoque", "ativo"]

/-- `STATUS_KEYS` of the source, read only by `_status_available`. -/
def STATUS_KEYS : List String := ["situacao", "situacaoEstoque", "status", "statusEstoque"]

/-- Models `_parse_float(val)`: `str(val).strip()`, the Brazilian-format
heuristic, then `float`.  For `int`/`float` inputs `str` round-trips and the
heuristic never fires (no comma), so the value itself is returned; `None`,
bools, lists and dicts stringify to something `float` always rejects. -/
def parse_float : JVal → Option ℚ
  | .jint n => some (n : ℚ)
  | .jfloat q => some q
  | .jstr s =>
      let t := pyStrip s
      if t = "" then none
      else if countChar t ',' = 1 ∧ countChar t '.' > 1 then
        pyFloat? (commaToDot (dropDots t))
      else pyFloat? (commaToDot t)
  | _ => none

/-- Models the quantity parse `float(str(v).replace(",", "."))` used by
`_has_positive_qty` and `_extract_qty` (note: no dot-stripping heuristic
here, unlike `_parse_float`). -/
def qty_parse : JVal → Option ℚ
  | .jint n => some (n : ℚ)
  | .jfloat q => some q
  | .jstr s => pyFloat? (commaToDot s)
  | _ => none

/-- Models `_has_positive_qty`: some recognised quantity key parses to a
number strictly greater than 0 (parse failures are ignored). -/
def has_positive_qty (d : List (String × JVal)) : Bool :=
  STOCK_QTY_KEYS.any fun k =>
    match (pyGet d k).bind qty_parse with
    | some n => decide (0 < n)
    | none => false

/-- Models `_status_available`: a status key holding a string that contains
one of the availability keywords. -/
def status_available (d : List (String × JVal)) : Bool :=
  STATUS_KEYS.any fun k =>
    match pyGet d k with
    | some (.jstr v) =>
        let s := String.mk ((pyStrip v).toList.map lowerChar)
        ["dispon", "em estoque", "in stock", "ativo"].any fun x => strIn x s
    | _ => false

/-- Models `_is_available`: the source returns `_has_positive_qty(d)` and
nothing else — the status-keyword detector is not consulted. -/
def is_available (d : List (String × JVal)) : Bool := has_positive_qty d

/-- Models `_extract_qty`: first quantity key whose value parses (set
iteration order fixed to the literal order, see `STOCK_QTY_KEYS`). -/
def extract_qty (d : List (String × JVal)) : Option ℚ :=
  STOCK_QTY_KEYS.findSome? fun k => (pyGet d k).bind qty_parse

/-- Models `_extract_price`: first price key (in tuple order) whose value
`_parse_float` accepts. -/
def extract_price (d : List (String × JVal)) : Option ℚ :=
  PRICE_KEYS.findSome? fun k => (pyGet d k).bind parse_float

/-- First cleaning step of the sanitize loop:
`{k: v for k, v in it.items() if k not in STOCK_QTY_KEYS}`. -/
def stripQty (d : List (String × JVal)) : List (String × JVal) :=
  d.filter fun kv => !(STOCK_QTY_KEYS.contains kv.1)

/-- `clean["disponibilidade"] = True` when the key is absent. -/
def withDisp (c : List (String × JVal)) : List (String × JVal) :=
  if (pyGet c "disponibilidade").isSome then c else c ++ [("disponibilidade", .jbool true)]

/-- Unified-price step of the sanitize loop (`clean["preco"] = price`). -/
def withPrice (orig c : List (String × JVal)) : List (String × JVal) :=
  match extract_price orig with
  | some p => dictSet c "preco" (.jfloat p)
  | none => c

/-- Unified-quantity step of the sanitize loop (`clean["quantidade"] = qty`). -/
def withQty (orig c : List (String × JVal)) : List (String × JVal) :=
  match extract_qty orig with
  | some q => dictSet c "quantidade" (.jfloat q)
  | none => c

/-- Body of the sanitize loop for one kept record. -/
def cleanRecord (d : List (String × JVal)) : List (String × JVal) :=
  withQty d (withPrice d (withDisp (stripQty d)))

/-- `items = data if isinstance(data, list) else ([data] if isinstance(data, dict) else [])`. -/
def coerceItems : JVal → List JVal
  | .jarr xs => xs
  | .jobj fs => [.jobj fs]
  | _ => []

/-- The sanitize loop of `estoque_preco`: non-dict entries are dropped,
records failing `_is_available` are dropped, kept records are cleaned. -/
def sanitize (items : List JVal) : List (List (String × JVal)) :=
  items.filterMap fun it =>
    match it with
    | .jobj d => if is_available d then some (cleanRecord d) else none
    | _ => none

/-- String escaping for the JSON renderer (quote, backslash and newline; all
that the payloads considered need). -/
def jsonEscape (s : String) : String :=
  String.join (s.toList.map fun c =>
    if c = '"' then "\\\"" else if c = '\\' then "\\\\"
    else if c = '\n' then "\\n" else String.mk [c])

/-- Number rendering for the JSON renderer; stands in for Python's `repr` of
`int`/`float`.  No claim below depends on the rendered text. -/
def ratDump (q : ℚ) : String :=
  if q.den = 1 then toString q.num ++ ".0" else toString q.num ++ "/" ++ toString q.den

mutual

/-- Models `json.dumps(_, ensure_ascii=False)` up to whitespace: the source
pretty-prints with `indent=2`; no claim below inspects the rendered text. -/
def jsonDumps : JVal → String
  | .jnull => "null"
  | .jbool b => if b then "true" else "false"
  | .jint n => toString n
  | .jfloat q => ratDump q
  | .jstr s => "\"" ++ jsonEscape s ++ "\""
  | .jarr xs => "[" ++ jsonDumpsList xs ++ "]"
  | .jobj fs => "\x7b" ++ jsonDumpsFields fs ++ "\x7d"

/-- Renderer for JSON arrays. -/
def jsonDumpsList : List JVal → String
  | [] => ""
  | [x] => jsonDumps x
  | x :: y :: xs => jsonDumps x ++ ", " ++ jsonDumpsList (y :: xs)

/-- Renderer for JSON objects. -/
def jsonDumpsFields : List (String × JVal) → String
  | [] => ""
  | [(k, v)] => "\"" ++ jsonEscape k ++ "\": " ++ jsonDumps v
  | (k, v) :: y :: fs => "\"" ++ jsonEscape k ++ "\": " ++ jsonDumps v ++ ", " ++ jsonDumpsFields (y :: fs)

end

/-- Outcome of one blocking `requests` call, as observed by the surrounding
`try`: a transport exception, or a response carrying its HTTP status, its
body parsed as JSON when `resp.json()` succeeds, and its raw text. -/
inductive NetResult where
  | timeout
  | reqError (msg : String)
  | ok (status : Nat) (jsonBody : Option JVal) (text : String)

/-- The request/normalise part of `estoque_preco`, reached once the
configuration and EAN checks have passed.  `raise_for_status` is modelled by
the 4xx/5xx branch. -/
def estoque_preco_body (net : NetResult) : String :=
  match net with
  | .timeout => "Erro: Timeout ao consultar preço/estoque por EAN. Tente novamente."
  | .reqError m => "Erro ao consultar EAN: " ++ m
  | .ok st js text =>
      if 400 ≤ st ∧ st < 600 then
        "Erro HTTP ao consultar EAN: " ++ toString st ++ " - " ++ text
      else
        match js with
        | none => text
        | some data => jsonDumps (.jarr ((sanitize (coerceItems data)).map .jobj))

/-- Models `estoque_preco` (src/tools/http_tools.py).  `baseCfg` is
`settings.estoque_ean_base_url`; the outbound GET is abstracted by `net`. -/
def estoque_preco (baseCfg : Option String) (ean : String) (net : NetResult) : String :=
  let base := rstripSlash (pyStrip (pyOr baseCfg ""))
  if base = "" then "Erro: ESTOQUE_EAN_BASE_URL não configurado no .env"
  else
    let eanDigits := String.mk (ean.toList.filter Char.isDigit)
    if eanDigits = "" then "Erro: EAN inválido. Informe apenas números."
    else estoque_preco_body net

/-- One attempted match of the regex `"codigo_ean"\s*:\s*([0-9]+)` at the head
of the text; on success returns the captured digit run and the rest. -/
def tryEanAt (cs : List Char) : Option (String × List Char) :=
  match matchLit "\"codigo_ean\"".toList cs with
  | none => none
  | some cs =>
      match (takeWhileSplit (pyWs ·) cs).2 with
      | ':' :: cs =>
          match takeWhileSplit (·.isDigit) (takeWhileSplit (pyWs ·) cs).2 with
          | ([], _) => none
          | (d :: ds, rest) => some (String.mk (d :: ds), rest)
      | _ => none

/-- One attempted match of the regex `"produto"\s*:\s*"([^"]+)"` at the head
of the text. -/
def tryNameAt (cs : List Char) : Option (String × List Char) :=
  match matchLit "\"produto\"".toList cs with
  | none => none
  | some cs =>
      match (takeWhileSplit (pyWs ·) cs).2 with
      | ':' :: cs =>
          match (takeWhileSplit (pyWs ·) cs).2 with
          | '"' :: cs =>
              match takeWhileSplit (fun c => c ≠ '"') cs with
              | ([], _) => none
              | (d :: ds, rest) =>
                  match rest with
                  | '"' :: rest2 => some (String.mk (d :: ds), rest2)
                  | _ => none
          | _ => none
      | _ => none

/-- `re.findall` driver: leftmost, non-overlapping matches, advancing one
character on failure.  `fuel` (initialised to the text length, an upper bound
on the number of steps) makes the recursion structural. -/
def scanAux (tryAt : List Char → Option (String × List Char)) : Nat → List Char → List String
  | 0, _ => []
  | _, [] => []
  | fuel + 1, c :: cs =>
      match tryAt (c :: cs) with
      | some (cap, rest) => cap :: scanAux tryAt fuel rest
      | none => scanAux tryAt fuel cs

/-- `re.findall(r'"codigo_ean"\s*:\s*([0-9]+)', text)`. -/
def scanEans (text : String) : List String :=
  scanAux tryEanAt text.toList.length text.toList

/-- `re.findall(r'"produto"\s*:\s*"([^"]+)"', text)`. -/
def scanNames (text : String) : List String :=
  scanAux tryNameAt text.toList.length text.toList

/-- A candidate pair `(code, name)` as produced by extraction. -/
abbrev EPair := Option String × Option String

/-- Models `_extract_pairs_from_text`: pair the two regex-result lists by
position, up to the 50-pair cap, keeping a pair when `e or n` is truthy. -/
def extract_pairs_from_text (text : String) : List EPair :=
  let eans := scanEans text
  let names := scanNames text
  let mn := min eans.length names.length
  let limit := if mn = 0 then max eans.length names.length else mn
  (List.range (min limit 50)).filterMap fun i =>
    let e := eans.get? i
    let n := names.get? i
    if pyTruthy e || pyTruthy n then some (e, n) else none

/-- The EAN-field alias list scanned by `try_obj`. -/
def EAN_KEYS : List String := ["ean", "ean_code", "codigo_ean", "barcode", "gtin"]

/-- The name-field alias list scanned by `try_obj`. -/
def NAME_KEYS : List String :=
  ["produto", "product", "name", "nome", "title", "descricao", "description"]

/-- `str(v)` for the values passing `isinstance(v, (str, int))` (Python bools
are ints, so they pass and render as "True"/"False"; floats do not pass). -/
def strOfStrInt : JVal → Option String
  | .jstr s => some s
  | .jint n => some (toString n)
  | .jbool b => some (if b then "True" else "False")
  | _ => none

/-- EAN-side loop of `try_obj`: first alias whose value is a `str`/`int` with
truthy `str(v).strip()`. -/
def tryObjEan (d : List (String × JVal)) : Option String :=
  EAN_KEYS.findSome? fun k =>
    (pyGet d k).bind fun v =>
      (strOfStrInt v).bind fun s =>
        if pyStrip s ≠ "" then some (pyStrip s) else none

/-- Name-side loop of `try_obj` (`isinstance(v, str)` only). -/
def tryObjName (d : List (String × JVal)) : Option String :=
  NAME_KEYS.findSome? fun k =>
    (pyGet d k).bind fun v =>
      match v with
      | .jstr s => if pyStrip s ≠ "" then some (pyStrip s) else none
      | _ => none

/-- Models `try_obj`: one pair appended when `e or n` is truthy. -/
def try_obj (d : List (String × JVal)) : Option EPair :=
  let e := tryObjEan d
  let n := tryObjName d
  if pyTruthy e || pyTruthy n then some (e, n) else none

mutual

/-- Models the recursive `walk` of `ean_lookup` over a structured payload:
direct extraction on each dict, then recursion into every field value that is
a dict, list or string; list elements are walked in order; a top-level string
goes through the regex extractor. -/
def walk : JVal → List EPair
  | .jobj fs =>
      (match try_obj fs with
       | some p => [p]
       | none => []) ++ walkFields fs
  | .jarr xs => walkItems xs
  | .jstr s => extract_pairs_from_text s
  | _ => []

/-- Field loop of `walk` over a dict's values. -/
def walkFields : List (String × JVal) → List EPair
  | [] => []
  | (_, .jobj fs) :: rest => walk (.jobj fs) ++ walkFields rest
  | (_, .jarr xs) :: rest => walkItems xs ++ walkFields rest
  | (_, .jstr s) :: rest => extract_pairs_from_text s ++ walkFields rest
  | _ :: rest => walkFields rest

/-- Element loop of `walk` over a list. -/
def walkItems : List JVal → List EPair
  | [] => []
  | x :: xs => walk x ++ walkItems xs

end

/-- Word characters of the tokenizing regex `[\wáéíóúâêîôûãõç]+`: ASCII `\w`
plus the listed accented letters.  The strings scanned here have been
lowercased and accent-folded first, so this alphabet is exhaustive for the
model. -/
def isWordChar (c : Char) : Bool :=
  c.isAlphanum || c = '_' ||
    (c = 'á' || c = 'é' || c = 'í' || c = 'ó' || c = 'ú' ||
     c = 'â' || c = 'ê' || c = 'î' || c = 'ô' || c = 'û' ||
     c = 'ã' || c = 'õ' || c = 'ç')

/-- Maximal runs of word characters (`re.findall` of the token regex);
`acc` holds the current run, reversed. -/
def wordRunsAux : List Char → List Char → List String
  | [], acc => if acc = [] then [] else [String.mk acc.reverse]
  | c :: cs, acc =>
      if isWordChar c then wordRunsAux cs (c :: acc)
      else if acc = [] then wordRunsAux cs []
      else String.mk acc.reverse :: wordRunsAux cs []

/-- Tokenization of the normalised query in `_score`. -/
def wordRuns (cs : List Char) : List String := wordRunsAux cs []

/-- The alternation `(g|kg|ml|l|litro|un)` in source order (first alternative
that matches wins, as in Python regex alternation — so `1litro` matches as
`1l`). -/
def matchUnit (cs : List Char) : Option (String × List Char) :=
  match matchLit "g".toList cs with
  | some r => some ("g", r)
  | none =>
    match matchLit "kg".toList cs with
    | some r => some ("kg", r)
    | none =>
      match matchLit "ml".toList cs with
      | some r => some ("ml", r)
      | none =>
        match matchLit "l".toList cs with
        | some r => some ("l", r)
        | none =>
          match matchLit "litro".toList cs with
          | some r => some ("litro", r)
          | none =>
            match matchLit "un".toList cs with
            | some r => some ("un", r)
            | none => none

/-- One attempted match of `(\d+\s*(g|kg|ml|l|litro|un))` at the head; the
capture is the whole match `m[0]` (digits, consumed whitespace, unit). -/
def tryQtyAt (cs : List Char) : Option (String × List Char) :=
  let d := takeWhileSplit (·.isDigit) cs
  if d.1 = [] then none
  else
    let w := takeWhileSplit (pyWs ·) d.2
    match matchUnit w.2 with
    | some (u, rest) => some (String.mk d.1 ++ String.mk w.1 ++ u, rest)
    | none => none

/-- `re.findall` of the quantity regex over the normalised query. -/
def qtyTokens (cs : List Char) : List String :=
  scanAux tryQtyAt cs.length cs

/-- Models `_score` (the identical local helper of both `ean_lookup` paths):
+1.0 per query token occurring in the normalised name, +1.5 per quantity
token occurring in it; a falsy name short-circuits to 0. -/
def score (q : String) (nome : Option String) : ℚ :=
  match nome with
  | none => 0
  | some nome =>
      if nome = "" then 0
      else
        let qn := normTxt q
        let nn := normTxt nome
        let s1 := (wordRuns qn.toList).foldl
          (fun sc tok => if tok ≠ "" ∧ strIn tok nn then sc + 1 else sc) (0 : ℚ)
        (qtyTokens qn.toList).foldl
          (fun sc m => if strIn m nn then sc + 3 / 2 else sc) s1

/-- `scored = [(pn, _score(query, pn[1])) for pn in pairs]`. -/
def scoredOf (q : String) (pairs : List EPair) : List (EPair × ℚ) :=
  pairs.map fun pn => (pn, score q pn.2)

/-- Stable descending insertion: a later element is placed after every earlier
element of greater-or-equal score. -/
def insertDesc (x : EPair × ℚ) : List (EPair × ℚ) → List (EPair × ℚ)
  | [] => [x]
  | y :: ys => if y.2 ≤ x.2 then x :: y :: ys else y :: insertDesc x ys

/-- Stable insertion sort, descending by score.  A stable sort is determined
uniquely by its key and the input order, so this models Python's stable
`sorted(scored, key=lambda x: x[1], reverse=True)`. -/
def sortDesc (l : List (EPair × ℚ)) : List (EPair × ℚ) :=
  l.foldr insertDesc []

/-- `top_relevant`: score-sorted candidates with score ≥ 1.0, first three. -/
def topRelevant (q : String) (pairs : List EPair) : List EPair :=
  (((sortDesc (scoredOf q pairs)).filter fun x => (1 : ℚ) ≤ x.2).map Prod.fst).take 3

/-- `ordered`: every candidate in score-descending order (JSON path). -/
def orderedPairs (q : String) (pairs : List EPair) : List EPair :=
  (sortDesc (scoredOf q pairs)).map Prod.fst

/-- `used_pairs` on the structured-JSON path of `ean_lookup`. -/
def usedPairsJson (q : String) (pairs : List EPair) : List EPair :=
  if topRelevant q pairs = [] then (orderedPairs q pairs).take 3 else topRelevant q pairs

/-- `used_pairs` on the raw-text path of `ean_lookup`. -/
def usedPairsText (q : String) (pairs : List EPair) : List EPair :=
  if topRelevant q pairs = [] then ((scoredOf q pairs).map Prod.fst).take 3
  else topRelevant q pairs

/-- One numbered line of `_format_summary`. -/
def pairLine (idx : Nat) (p : EPair) : Option String :=
  if pyTruthy p.1 ∧ pyTruthy p.2 then
    some (toString idx ++ ") " ++ p.1.getD "" ++ " - " ++ p.2.getD "")
  else if pyTruthy p.1 then some (toString idx ++ ") " ++ p.1.getD "")
  else if pyTruthy p.2 then some (toString idx ++ ") " ++ p.2.getD "")
  else none

/-- Models `_format_summary`: `None` for an empty pair list, otherwise the
header line followed by the numbered pair lines. -/
def format_summary (pairs : List EPair) : Option String :=
  if pairs = [] then none
  else some (String.intercalate "\n"
    ("EANS_ENCONTRADOS:" :: pairs.enum.filterMap fun ip => pairLine (ip.1 + 1) ip.2))

/-- The smart-responder settings read by `ean_lookup`. -/
structure SmartCfg where
  url : Option String
  auth : Option String
  token : Option String
  apikey : Option String

/-- The request/summarise part of `ean_lookup`, reached once the
configuration check has passed.  `ean_lookup` never calls
`raise_for_status`, so an error status flows through the ordinary response
path. -/
def ean_lookup_body (query : String) (net : NetResult) : String :=
  match net with
  | .timeout => "Erro: Timeout ao consultar smart-responder. Tente novamente."
  | .reqError m => "Erro ao consultar smart-responder: " ++ m
  | .ok _ (some data) _ =>
      match format_summary (usedPairsJson query (walk data)) with
      | some summary => summary ++ "\n\n" ++ jsonDumps data
      | none => jsonDumps data
  | .ok _ none text =>
      match format_summary (usedPairsText query (extract_pairs_from_text text)) with
      | some summary => summary ++ "\n\n" ++ text
      | none => text

/-- Models `ean_lookup`.  The POST is abstracted by `net`; backtick removal
and `Bearer` normalisation only shape the outbound request and are not
re-modelled. -/
def ean_lookup (cfg : SmartCfg) (query : String) (net : NetResult) : String :=
  let url := pyStrip (pyOr cfg.url "")
  let authToken := pyStrip (pyOr cfg.auth (pyOr cfg.token ""))
  if url = "" ∨ authToken = "" then "Erro: SMART_RESPONDER_URL/AUTH não configurados no .env"
  else ean_lookup_body query net

end HttpTools


namespace HttpTools

/-! ### Association-list lemmas -/

theorem pyGet_append_some {l l' : List (String × JVal)} {k : String} {v : JVal}
    (h : pyGet l k = some v) : pyGet (l ++ l') k = some v := by
  induction l with
  | nil => simp [pyGet] at h
  | cons a rest ih =>
      obtain ⟨a1, a2⟩ := a
      by_cases hk : a1 = k
      · subst hk
        simp [pyGet] at h ⊢
        exact h
      · simp [pyGet, hk] at h ⊢
        exact ih h

theorem pyGet_append_none {l l' : List (String × JVal)} {k : String}
    (h : pyGet l k = none) : pyGet (l ++ l') k = pyGet l' k := by
  induction l with
  | nil => simp [pyGet]
  | cons a rest ih =>
      obtain ⟨a1, a2⟩ := a
      by_cases hk : a1 = k
      · subst hk
        simp [pyGet] at h
      · simp [pyGet, hk] at h ⊢
        exact ih h

theorem pyGet_eq_none_iff {l : List (String × JVal)} {k : String} :
    pyGet l k = none ↔ ∀ kv ∈ l, kv.1 ≠ k := by
  induction l with
  | nil => simp [pyGet]
  | cons a rest ih =>
      obtain ⟨a1, a2⟩ := a
      by_cases hk : a1 = k
      · subst hk
        simp [pyGet]
      · simp [pyGet, hk, ih]

theorem pyGet_single_self {k : String} {v : JVal} : pyGet [(k, v)] k = some v := by
  simp [pyGet]

theorem pyGet_single_ne {a k : String} {v : JVal} (h : a ≠ k) :
    pyGet [(a, v)] k = none := by
  simp [pyGet, h]

theorem pyGet_replaceEntry_some {l : List (String × JVal)} {k : String} {v w : JVal}
    (h : pyGet l k = some w) : pyGet (replaceEntry k v l) k = some v := by
  induction l with
  | nil => simp [pyGet] at h
  | cons a rest ih =>
      obtain ⟨a1, a2⟩ := a
      by_cases hk : a1 = k
      · subst hk
        simp [replaceEntry, pyGet]
      · simp [pyGet, hk] at h
        simp [replaceEntry, pyGet, hk]
        exact ih h

theorem pyGet_replaceEntry_ne {l : List (String × JVal)} {k a : String} {v : JVal}
    (h : a ≠ k) : pyGet (replaceEntry k v l) a = pyGet l a := by
  induction l with
  | nil => simp [replaceEntry]
  | cons x rest ih =>
      obtain ⟨x1, x2⟩ := x
      by_cases hk : x1 = k
      · subst hk
        simp [replaceEntry, pyGet, Ne.symm h, ih]
      · simp [replaceEntry, pyGet, hk, ih]

theorem replaceEntry_eq_self_of_none {l : List (String × JVal)} {k : String} {v : JVal}
    (h : pyGet l k = none) : replaceEntry k v l = l := by
  induction l with
  | nil => simp [replaceEntry]
  | cons a rest ih =>
      obtain ⟨a1, a2⟩ := a
      by_cases hk : a1 = k
      · subst hk
        simp [pyGet] at h
      · simp [pyGet, hk] at h
        simp [replaceEntry, hk, ih h]

theorem replaceEntry_idem {l : List (String × JVal)} {k : String} {v : JVal} :
    replaceEntry k v (replaceEntry k v l) = replaceEntry k v l := by
  induction l with
  | nil => simp [replaceEntry]
  | cons a rest ih =>
      obtain ⟨a1, a2⟩ := a
      by_cases hk : a1 = k
      · subst hk
        simp [replaceEntry, ih]
      · simp [replaceEntry, hk, ih]

theorem replaceEntry_append {l l' : List (String × JVal)} {k : String} {v : JVal} :
    replaceEntry k v (l ++ l') = replaceEntry k v l ++ replaceEntry k v l' := by
  induction l with
  | nil => simp [replaceEntry]
  | cons a rest ih =>
      obtain ⟨a1, a2⟩ := a
      by_cases hk : a1 = k
      · subst hk
        simp [replaceEntry, ih]
      · simp [replaceEntry, hk, ih]

theorem mem_replaceEntry_ne {l : List (String × JVal)} {k : String} {v : JVal}
    {x : String × JVal} (hx : x ∈ l) (hk : x.1 ≠ k) : x ∈ replaceEntry k v l := by
  induction l with
  | nil => simp at hx
  | cons a rest ih =>
      obtain ⟨a1, a2⟩ := a
      rcases List.mem_cons.mp hx with hx1 | hx2
      · subst hx1
        have h1 : ¬ a1 = k := hk
        simp [replaceEntry, h1]
      · by_cases h1 : a1 = k
        · subst h1
          simp only [replaceEntry, if_pos rfl]
          exact List.mem_cons_of_mem _ (ih hx2)
        · simp only [replaceEntry, if_neg h1]
          exact List.mem_cons_of_mem _ (ih hx2)

theorem pyGet_dictSet_self {l : List (String × JVal)} {k : String} {v : JVal} :
    pyGet (dictSet l k v) k = some v := by
  unfold dictSet
  cases hg : pyGet l k with
  | some w => simp [hg, pyGet_replaceEntry_some hg]
  | none => simp [hg, pyGet_append_none hg, pyGet_single_self]

theorem pyGet_dictSet_ne {l : List (String × JVal)} {k a : String} {v : JVal}
    (h : a ≠ k) : pyGet (dictSet l k v) a = pyGet l a := by
  unfold dictSet
  cases hg : pyGet l k with
  | some w => simp [hg, pyGet_replaceEntry_ne h]
  | none =>
      cases ha : pyGet l a with
      | some w => simp [hg, pyGet_append_some ha, ha]
      | none => simp [hg, pyGet_append_none ha, ha, pyGet_single_ne (Ne.symm h)]

theorem mem_dictSet_ne {l : List (String × JVal)} {k : String} {v : JVal}
    {x : String × JVal} (hx : x ∈ l) (hk : x.1 ≠ k) : x ∈ dictSet l k v := by
  unfold dictSet
  cases hg : pyGet l k with
  | some w => simp only [hg, Option.isSome_some, if_true]; exact mem_replaceEntry_ne hx hk
  | none => simp only [hg, Option.isSome_none, Bool.false_eq_true, if_false]
            exact List.mem_append_left _ hx

theorem dictSet_idem {l : List (String × JVal)} {k : String} {v : JVal} :
    dictSet (dictSet l k v) k v = dictSet l k v := by
  have hself : pyGet (dictSet l k v) k = some v := pyGet_dictSet_self
  have h1 : dictSet (dictSet l k v) k v = replaceEntry k v (dictSet l k v) := by
    rw [dictSet, hself]
    simp
  rw [h1]
  unfold dictSet
  cases hg : pyGet l k with
  | some w =>
      simp only [hg, Option.isSome_some, if_true]
      exact replaceEntry_idem
  | none =>
      simp only [hg, Option.isSome_none, Bool.false_eq_true, if_false]
      rw [replaceEntry_append, replaceEntry_eq_self_of_none hg]
      simp [replaceEntry]

end HttpTools

namespace HttpTools

/-! ### Generic scanning-combinator lemmas -/

theorem findSome?_congr_mem {α β : Type} {l : List α} {f g : α → Option β}
    (h : ∀ a ∈ l, f a = g a) : l.findSome? f = l.findSome? g := by
  induction l with
  | nil => rfl
  | cons a rest ih =>
      rw [List.findSome?_cons, List.findSome?_cons, h a (List.mem_cons_self a rest)]
      cases g a with
      | some b => rfl
      | none => exact ih fun x hx => h x (List.mem_cons_of_mem _ hx)

theorem findSome?_stable {α β : Type} [DecidableEq α] {l : List α} {f g : α → Option β}
    (k0 : α) {p : β} (hf : l.findSome? f = some p)
    (hfg : ∀ a ∈ l, a ≠ k0 → g a = f a) (hg : g k0 = some p) :
    l.findSome? g = some p := by
  induction l with
  | nil => simp [List.findSome?] at hf
  | cons a rest ih =>
      by_cases ha : a = k0
      · subst ha
        rw [List.findSome?_cons, hg]
      · rw [List.findSome?_cons, hfg a (List.mem_cons_self a rest) ha]
        rw [List.findSome?_cons] at hf
        cases hfa : f a with
        | some b => rw [hfa] at hf; exact hf
        | none =>
            rw [hfa] at hf
            exact ih hf fun x hx hxk => hfg x (List.mem_cons_of_mem _ hx) hxk

theorem findSome?_unique {α β : Type} [DecidableEq α] {l : List α} {g : α → Option β}
    (k0 : α) {p : β} (hz : ∀ a ∈ l, a ≠ k0 → g a = none) (hm : k0 ∈ l)
    (hg : g k0 = some p) : l.findSome? g = some p := by
  induction l with
  | nil => simp at hm
  | cons a rest ih =>
      by_cases ha : a = k0
      · subst ha
        rw [List.findSome?_cons, hg]
      · rw [List.findSome?_cons, hz a (List.mem_cons_self a rest) ha]
        have hm' : k0 ∈ rest := by
          rcases List.mem_cons.mp hm with h1 | h2
          · exact absurd h1.symm ha
          · exact h2
        exact ih (fun x hx hxk => hz x (List.mem_cons_of_mem _ hx) hxk) hm'

theorem findSome?_isSome_of {α β : Type} {l : List α} {g : α → Option β} {a : α}
    (hm : a ∈ l) (hs : (g a).isSome) : (l.findSome? g).isSome := by
  induction l with
  | nil => simp at hm
  | cons x rest ih =>
      rw [List.findSome?_cons]
      cases hgx : g x with
      | some b => simp
      | none =>
          rcases List.mem_cons.mp hm with h1 | h2
          · subst h1
            rw [hgx] at hs
            simp at hs
          · exact ih h2

theorem any_congr_mem {α : Type} {l : List α} {p q : α → Bool}
    (h : ∀ a ∈ l, p a = q a) : l.any p = l.any q := by
  induction l with
  | nil => rfl
  | cons a rest ih =>
      simp only [List.any_cons, h a (List.mem_cons_self a rest)]
      rw [ih fun x hx => h x (List.mem_cons_of_mem _ hx)]

theorem filterMap_eq_self_of {α : Type} {l : List α} {f : α → Option α}
    (h : ∀ a ∈ l, f a = some a) : l.filterMap f = l := by
  induction l with
  | nil => rfl
  | cons a rest ih =>
      rw [List.filterMap_cons, h a (List.mem_cons_self a rest),
          ih fun x hx => h x (List.mem_cons_of_mem _ hx)]

theorem filterMap_range_eq_map {β : Type} {n : Nat} {f : Nat → Option β} {g : Nat → β}
    (h : ∀ i < n, f i = some (g i)) :
    (List.range n).filterMap f = (List.range n).map g := by
  induction n with
  | zero => rfl
  | succ m ih =>
      rw [List.range_succ, List.filterMap_append, List.map_append,
          ih fun i hi => h i (Nat.lt_succ_of_lt hi)]
      simp [List.filterMap_cons, h m (Nat.lt_succ_self m)]

end HttpTools

namespace HttpTools

/-! ### Sanitize-stage lemmas -/

/-- No entry of `c` carries a recognised quantity key. -/
def NoQtyKeys (c : List (String × JVal)) : Prop :=
  ∀ kv ∈ c, STOCK_QTY_KEYS.contains kv.1 = false

theorem noQtyKeys_stripQty {d : List (String × JVal)} : NoQtyKeys (stripQty d) := by
  intro kv hkv
  have h := List.of_mem_filter hkv
  simpa using h

theorem pyGet_filter_ne {p : String × JVal → Bool} {d : List (String × JVal)} {k : String}
    (h : ∀ v, p (k, v) = true) : pyGet (d.filter p) k = pyGet d k := by
  induction d with
  | nil => rfl
  | cons a rest ih =>
      obtain ⟨a1, a2⟩ := a
      rw [List.filter_cons]
      by_cases hk : a1 = k
      · subst hk
        rw [if_pos (h a2)]
        simp [pyGet]
      · by_cases hp : p (a1, a2) = true
        · rw [if_pos hp]
          simp only [pyGet, hk, if_false]
          exact ih
        · rw [if_neg hp, ih]
          simp [pyGet, hk]

theorem pyGet_filter_none {p : String × JVal → Bool} {d : List (String × JVal)} {k : String}
    (h : ∀ v, p (k, v) = false) : pyGet (d.filter p) k = none := by
  rw [pyGet_eq_none_iff]
  intro kv hkv hk
  have h2 := List.of_mem_filter hkv
  have h3 : kv = (k, kv.2) := by
    rw [← hk]
  rw [h3, h kv.2] at h2
  cases h2

theorem pyGet_stripQty_ne {d : List (String × JVal)} {k : String}
    (h : STOCK_QTY_KEYS.contains k = false) : pyGet (stripQty d) k = pyGet d k := by
  have h' : k ∉ STOCK_QTY_KEYS := by simpa using h
  apply pyGet_filter_ne
  intro v
  simp [h']

theorem pyGet_stripQty_qty {d : List (String × JVal)} {k : String}
    (h : STOCK_QTY_KEYS.contains k = true) : pyGet (stripQty d) k = none := by
  have h' : k ∈ STOCK_QTY_KEYS := by simpa using h
  apply pyGet_filter_none
  intro v
  simp [h']

theorem mem_stripQty {d : List (String × JVal)} {x : String × JVal}
    (hx : x ∈ d) (h : STOCK_QTY_KEYS.contains x.1 = false) : x ∈ stripQty d := by
  refine List.mem_filter.mpr ⟨hx, ?_⟩
  simpa using h

theorem pyGet_withDisp_ne {c : List (String × JVal)} {k : String}
    (h : k ≠ "disponibilidade") : pyGet (withDisp c) k = pyGet c k := by
  unfold withDisp
  cases hg : pyGet c "disponibilidade" with
  | some w => simp
  | none =>
      simp only [Option.isSome_none, Bool.false_eq_true, if_false]
      cases hk : pyGet c k with
      | some w => exact pyGet_append_some hk
      | none =>
          rw [pyGet_append_none hk, pyGet_single_ne (Ne.symm h)]

theorem pyGet_withDisp_isSome {c : List (String × JVal)} :
    (pyGet (withDisp c) "disponibilidade").isSome := by
  unfold withDisp
  cases hg : pyGet c "disponibilidade" with
  | some w => simp [hg]
  | none =>
      simp only [Option.isSome_none, Bool.false_eq_true, if_false]
      rw [pyGet_append_none hg, pyGet_single_self]
      rfl

theorem pyGet_withDisp_some {c : List (String × JVal)} {w : JVal}
    (h : pyGet c "disponibilidade" = some w) :
    pyGet (withDisp c) "disponibilidade" = some w := by
  unfold withDisp
  simp [h]

theorem pyGet_withDisp_none {c : List (String × JVal)}
    (h : pyGet c "disponibilidade" = none) :
    pyGet (withDisp c) "disponibilidade" = some (.jbool true) := by
  unfold withDisp
  simp only [h, Option.isSome_none, Bool.false_eq_true, if_false]
  rw [pyGet_append_none h, pyGet_single_self]

theorem mem_withDisp {c : List (String × JVal)} {x : String × JVal}
    (hx : x ∈ c) : x ∈ withDisp c := by
  unfold withDisp
  cases pyGet c "disponibilidade" with
  | some w => simpa using hx
  | none =>
      simp only [Option.isSome_none, Bool.false_eq_true, if_false]
      exact List.mem_append_left _ hx

theorem withDisp_eq_self {c : List (String × JVal)}
    (h : (pyGet c "disponibilidade").isSome) : withDisp c = c := by
  unfold withDisp
  simp [h]

theorem noQtyKeys_withDisp {c : List (String × JVal)} (h : NoQtyKeys c) :
    NoQtyKeys (withDisp c) := by
  intro kv hkv
  unfold withDisp at hkv
  by_cases hs : (pyGet c "disponibilidade").isSome = true
  · rw [if_pos hs] at hkv
    exact h kv hkv
  · rw [if_neg hs] at hkv
    rcases List.mem_append.mp hkv with h1 | h2
    · exact h kv h1
    · have h3 : kv = ("disponibilidade", JVal.jbool true) := by simpa using h2
      rw [h3]
      decide

theorem mem_of_mem_replaceEntry {l : List (String × JVal)} {k : String} {v : JVal}
    {x : String × JVal} (hx : x ∈ replaceEntry k v l) : x = (k, v) ∨ x ∈ l := by
  induction l with
  | nil => simp [replaceEntry] at hx
  | cons a rest ih =>
      obtain ⟨a1, a2⟩ := a
      by_cases hk : a1 = k
      · subst hk
        simp only [replaceEntry, if_pos rfl] at hx
        rcases List.mem_cons.mp hx with h1 | h2
        · exact Or.inl h1
        · rcases ih h2 with h3 | h4
          · exact Or.inl h3
          · exact Or.inr (List.mem_cons_of_mem _ h4)
      · simp only [replaceEntry, if_neg hk] at hx
        rcases List.mem_cons.mp hx with h1 | h2
        · exact Or.inr (h1 ▸ List.mem_cons_self _ _)
        · rcases ih h2 with h3 | h4
          · exact Or.inl h3
          · exact Or.inr (List.mem_cons_of_mem _ h4)

theorem noQtyKeys_dictSet {c : List (String × JVal)} {k : String} {v : JVal}
    (h : NoQtyKeys c) (hk : STOCK_QTY_KEYS.contains k = false) :
    NoQtyKeys (dictSet c k v) := by
  intro kv hkv
  unfold dictSet at hkv
  by_cases hs : (pyGet c k).isSome = true
  · rw [if_pos hs] at hkv
    rcases mem_of_mem_replaceEntry hkv with h1 | h2
    · rw [h1]; exact hk
    · exact h kv h2
  · rw [if_neg hs] at hkv
    rcases List.mem_append.mp hkv with h1 | h2
    · exact h kv h1
    · have h3 : kv = (k, v) := by simpa using h2
      rw [h3]; exact hk

theorem pyGet_withPrice_ne {d c : List (String × JVal)} {k : String}
    (h : k ≠ "preco") : pyGet (withPrice d c) k = pyGet c k := by
  unfold withPrice
  cases extract_price d with
  | none => rfl
  | some p => exact pyGet_dictSet_ne h

theorem mem_withPrice {d c : List (String × JVal)} {x : String × JVal}
    (hx : x ∈ c) (h : x.1 ≠ "preco") : x ∈ withPrice d c := by
  unfold withPrice
  cases extract_price d with
  | none => exact hx
  | some p => exact mem_dictSet_ne hx h

theorem noQtyKeys_withPrice {d c : List (String × JVal)} (h : NoQtyKeys c) :
    NoQtyKeys (withPrice d c) := by
  unfold withPrice
  cases extract_price d with
  | none => exact h
  | some p => exact noQtyKeys_dictSet h (by decide)

theorem pyGet_withQty_ne {d c : List (String × JVal)} {k : String}
    (h : k ≠ "quantidade") : pyGet (withQty d c) k = pyGet c k := by
  unfold withQty
  cases extract_qty d with
  | none => rfl
  | some q => exact pyGet_dictSet_ne h

theorem mem_withQty {d c : List (String × JVal)} {x : String × JVal}
    (hx : x ∈ c) (h : x.1 ≠ "quantidade") : x ∈ withQty d c := by
  unfold withQty
  cases extract_qty d with
  | none => exact hx
  | some q => exact mem_dictSet_ne hx h

theorem pyGet_none_of_noQtyKeys {c : List (String × JVal)} {k : String}
    (h : NoQtyKeys c) (hk : STOCK_QTY_KEYS.contains k = true) : pyGet c k = none := by
  rw [pyGet_eq_none_iff]
  intro kv hkv he
  have := h kv hkv
  rw [he, hk] at this
  cases this

end HttpTools

namespace HttpTools

/-! ### cleanRecord structure lemmas -/

theorem noQtyKeys_core {d : List (String × JVal)} :
    NoQtyKeys (withPrice d (withDisp (stripQty d))) :=
  noQtyKeys_withPrice (noQtyKeys_withDisp noQtyKeys_stripQty)

theorem cleanRecord_eq_append {d : List (String × JVal)} {q : ℚ}
    (hq : extract_qty d = some q) :
    cleanRecord d = withPrice d (withDisp (stripQty d)) ++ [("quantidade", JVal.jfloat q)] := by
  unfold cleanRecord
  have h1 : withQty d (withPrice d (withDisp (stripQty d))) =
      dictSet (withPrice d (withDisp (stripQty d))) "quantidade" (JVal.jfloat q) := by
    unfold withQty
    rw [hq]
  rw [h1]
  have hA : pyGet (withPrice d (withDisp (stripQty d))) "quantidade" = none := by
    rw [pyGet_withPrice_ne (by decide), pyGet_withDisp_ne (by decide),
        pyGet_stripQty_qty (by decide)]
  unfold dictSet
  rw [hA]
  simp

theorem cleanRecord_eq_noqty {d : List (String × JVal)}
    (hq : extract_qty d = none) :
    cleanRecord d = withPrice d (withDisp (stripQty d)) := by
  unfold cleanRecord withQty
  rw [hq]

theorem pyGet_cleanRecord_ne {d : List (String × JVal)} {k : String}
    (hq : STOCK_QTY_KEYS.contains k = false) (hp : k ≠ "preco")
    (hd : k ≠ "disponibilidade") : pyGet (cleanRecord d) k = pyGet d k := by
  have hqt : k ≠ "quantidade" := by
    intro he
    subst he
    exact absurd hq (by decide)
  unfold cleanRecord
  rw [pyGet_withQty_ne hqt, pyGet_withPrice_ne hp, pyGet_withDisp_ne hd,
      pyGet_stripQty_ne hq]

theorem pyGet_cleanRecord_qtykey {d : List (String × JVal)} {k : String}
    (hq : STOCK_QTY_KEYS.contains k = true) (hne : k ≠ "quantidade") :
    pyGet (cleanRecord d) k = none := by
  have hp : k ≠ "preco" := by
    intro he
    subst he
    exact absurd hq (by decide)
  have hd : k ≠ "disponibilidade" := by
    intro he
    subst he
    exact absurd hq (by decide)
  unfold cleanRecord
  rw [pyGet_withQty_ne hne, pyGet_withPrice_ne hp, pyGet_withDisp_ne hd,
      pyGet_stripQty_qty hq]

theorem pyGet_cleanRecord_quantidade {d : List (String × JVal)} :
    pyGet (cleanRecord d) "quantidade" = (extract_qty d).map (fun q => JVal.jfloat q) := by
  cases hq : extract_qty d with
  | none =>
      rw [cleanRecord_eq_noqty hq, pyGet_withPrice_ne (by decide),
          pyGet_withDisp_ne (by decide), pyGet_stripQty_qty (by decide)]
      rfl
  | some q =>
      rw [cleanRecord_eq_append hq]
      have hA : pyGet (withPrice d (withDisp (stripQty d))) "quantidade" = none := by
        rw [pyGet_withPrice_ne (by decide), pyGet_withDisp_ne (by decide),
            pyGet_stripQty_qty (by decide)]
      rw [pyGet_append_none hA, pyGet_single_self]
      rfl

theorem pyGet_cleanRecord_preco_some {d : List (String × JVal)} {p : ℚ}
    (hp : extract_price d = some p) :
    pyGet (cleanRecord d) "preco" = some (JVal.jfloat p) := by
  unfold cleanRecord
  rw [pyGet_withQty_ne (by decide)]
  have h1 : withPrice d (withDisp (stripQty d)) =
      dictSet (withDisp (stripQty d)) "preco" (JVal.jfloat p) := by
    unfold withPrice
    rw [hp]
  rw [h1, pyGet_dictSet_self]

theorem pyGet_cleanRecord_preco_none {d : List (String × JVal)}
    (hp : extract_price d = none) :
    pyGet (cleanRecord d) "preco" = pyGet d "preco" := by
  unfold cleanRecord
  rw [pyGet_withQty_ne (by decide)]
  have h1 : withPrice d (withDisp (stripQty d)) = withDisp (stripQty d) := by
    unfold withPrice
    rw [hp]
  rw [h1, pyGet_withDisp_ne (by decide), pyGet_stripQty_ne (by decide)]

theorem pyGet_cleanRecord_disp_some {d : List (String × JVal)} {w : JVal}
    (h : pyGet d "disponibilidade" = some w) :
    pyGet (cleanRecord d) "disponibilidade" = some w := by
  unfold cleanRecord
  rw [pyGet_withQty_ne (by decide), pyGet_withPrice_ne (by decide)]
  exact pyGet_withDisp_some (by rw [pyGet_stripQty_ne (by decide)]; exact h)

theorem pyGet_cleanRecord_disp_none {d : List (String × JVal)}
    (h : pyGet d "disponibilidade" = none) :
    pyGet (cleanRecord d) "disponibilidade" = some (JVal.jbool true) := by
  unfold cleanRecord
  rw [pyGet_withQty_ne (by decide), pyGet_withPrice_ne (by decide)]
  exact pyGet_withDisp_none (by rw [pyGet_stripQty_ne (by decide)]; exact h)

theorem mem_cleanRecord {d : List (String × JVal)} {x : String × JVal}
    (hx : x ∈ d) (h1 : STOCK_QTY_KEYS.contains x.1 = false) (h2 : x.1 ≠ "preco") :
    x ∈ cleanRecord d := by
  have h3 : x.1 ≠ "quantidade" := by
    intro he
    rw [he] at h1
    exact absurd h1 (by decide)
  exact mem_withQty (mem_withPrice (mem_withDisp (mem_stripQty hx h1)) h2) h3

theorem extract_qty_isSome_of_available {d : List (String × JVal)}
    (h : has_positive_qty d = true) : (extract_qty d).isSome := by
  unfold has_positive_qty at h
  rw [List.any_eq_true] at h
  obtain ⟨k, hk, hpk⟩ := h
  unfold extract_qty
  cases hb : (pyGet d k).bind qty_parse with
  | none =>
      rw [hb] at hpk
      simp at hpk
  | some n => exact findSome?_isSome_of hk (by rw [hb]; rfl)

end HttpTools

namespace HttpTools

/-! ### Round-trip lemmas for the sanitize loop -/

theorem stripQty_append {l l' : List (String × JVal)} :
    stripQty (l ++ l') = stripQty l ++ stripQty l' := by
  unfold stripQty
  exact List.filter_append _ _

theorem stripQty_eq_self {c : List (String × JVal)} (h : NoQtyKeys c) :
    stripQty c = c := by
  apply List.filter_eq_self.mpr
  intro a ha
  have h2 := h a ha
  simpa using h2

theorem stripQty_single_qty {k : String} {v : JVal}
    (h : STOCK_QTY_KEYS.contains k = true) : stripQty [(k, v)] = [] := by
  have h' : k ∈ STOCK_QTY_KEYS := by simpa using h
  simp [stripQty, h']

theorem withPrice_eq_dictSet {d c : List (String × JVal)} {p : ℚ}
    (hp : extract_price d = some p) :
    withPrice d c = dictSet c "preco" (JVal.jfloat p) := by
  unfold withPrice
  rw [hp]

theorem withPrice_eq_self {d c : List (String × JVal)}
    (hp : extract_price d = none) : withPrice d c = c := by
  unfold withPrice
  rw [hp]

theorem withQty_eq_dictSet {d c : List (String × JVal)} {q : ℚ}
    (hq : extract_qty d = some q) :
    withQty d c = dictSet c "quantidade" (JVal.jfloat q) := by
  unfold withQty
  rw [hq]

theorem extract_price_cleanRecord {d : List (String × JVal)} :
    extract_price (cleanRecord d) = extract_price d := by
  have hside : ∀ k ∈ PRICE_KEYS, STOCK_QTY_KEYS.contains k = false ∧
      k ≠ "disponibilidade" := by decide
  cases hp : extract_price d with
  | some p =>
      have hp' := hp
      unfold extract_price at hp ⊢
      refine findSome?_stable "preco" hp ?_ ?_
      · intro k hk hkp
        rw [pyGet_cleanRecord_ne (hside k hk).1 hkp (hside k hk).2]
      · rw [pyGet_cleanRecord_preco_some hp']
        rfl
  | none =>
      have hp' := hp
      unfold extract_price at hp ⊢
      rw [← hp]
      apply findSome?_congr_mem
      intro k hk
      by_cases hkp : k = "preco"
      · subst hkp
        rw [pyGet_cleanRecord_preco_none hp']
      · rw [pyGet_cleanRecord_ne (hside k hk).1 hkp (hside k hk).2]

theorem extract_qty_cleanRecord {d : List (String × JVal)} {q : ℚ}
    (hq : extract_qty d = some q) : extract_qty (cleanRecord d) = some q := by
  unfold extract_qty
  refine findSome?_unique "quantidade" ?_ (by decide) ?_
  · intro k hk hkq
    have hc : STOCK_QTY_KEYS.contains k = true := by simpa using hk
    rw [pyGet_cleanRecord_qtykey hc hkq]
    rfl
  · rw [pyGet_cleanRecord_quantidade, hq]
    rfl

theorem cleanRecord_cleanRecord {d : List (String × JVal)} {q : ℚ}
    (hq : extract_qty d = some q) :
    cleanRecord (cleanRecord d) = cleanRecord d := by
  have hNoA : NoQtyKeys (withPrice d (withDisp (stripQty d))) := noQtyKeys_core
  have hr : cleanRecord d =
      withPrice d (withDisp (stripQty d)) ++ [("quantidade", JVal.jfloat q)] :=
    cleanRecord_eq_append hq
  have h1 : stripQty (cleanRecord d) = withPrice d (withDisp (stripQty d)) := by
    rw [hr, stripQty_append, stripQty_eq_self hNoA, stripQty_single_qty (by decide),
        List.append_nil]
  have hdispA : (pyGet (withPrice d (withDisp (stripQty d))) "disponibilidade").isSome := by
    rw [pyGet_withPrice_ne (by decide)]
    exact pyGet_withDisp_isSome
  have h2 : withDisp (stripQty (cleanRecord d)) = withPrice d (withDisp (stripQty d)) := by
    rw [h1]
    exact withDisp_eq_self hdispA
  have h3 : withPrice (cleanRecord d) (withDisp (stripQty (cleanRecord d))) =
      withPrice d (withDisp (stripQty d)) := by
    rw [h2]
    cases hp : extract_price d with
    | some p =>
        have hpr : extract_price (cleanRecord d) = some p := by
          rw [extract_price_cleanRecord, hp]
        rw [withPrice_eq_dictSet hpr, withPrice_eq_dictSet hp, dictSet_idem]
    | none =>
        have hpr : extract_price (cleanRecord d) = none := by
          rw [extract_price_cleanRecord, hp]
        rw [withPrice_eq_self hpr]
  have hqr : extract_qty (cleanRecord d) = some q := extract_qty_cleanRecord hq
  have hAq : pyGet (withPrice d (withDisp (stripQty d))) "quantidade" = none :=
    pyGet_none_of_noQtyKeys hNoA (by decide)
  calc cleanRecord (cleanRecord d)
      = withQty (cleanRecord d)
          (withPrice (cleanRecord d) (withDisp (stripQty (cleanRecord d)))) := rfl
    _ = withQty (cleanRecord d) (withPrice d (withDisp (stripQty d))) := by rw [h3]
    _ = dictSet (withPrice d (withDisp (stripQty d))) "quantidade" (JVal.jfloat q) := by
          rw [withQty_eq_dictSet hqr]
    _ = withPrice d (withDisp (stripQty d)) ++ [("quantidade", JVal.jfloat q)] := by
          unfold dictSet
          rw [hAq]
          simp
    _ = cleanRecord d := hr.symm

theorem mem_sanitize {items : List JVal} {r : List (String × JVal)}
    (h : r ∈ sanitize items) :
    ∃ d, JVal.jobj d ∈ items ∧ is_available d = true ∧ r = cleanRecord d := by
  unfold sanitize at h
  obtain ⟨it, hit, hsome⟩ := List.mem_filterMap.mp h
  cases it with
  | jobj d =>
      have hsome2 : (if is_available d = true then some (cleanRecord d) else none) = some r :=
        hsome
      by_cases ha : is_available d = true
      · refine ⟨d, hit, ha, ?_⟩
        rw [if_pos ha] at hsome2
        exact (Option.some_inj.mp hsome2).symm
      · rw [if_neg ha] at hsome2
        cases hsome2
  | jnull => cases hsome
  | jbool b => cases hsome
  | jint n => cases hsome
  | jfloat p => cases hsome
  | jstr s => cases hsome
  | jarr xs => cases hsome

theorem sanitize_map_jobj {L : List (List (String × JVal))} :
    sanitize (L.map JVal.jobj) =
      L.filterMap fun d => if is_available d then some (cleanRecord d) else none := by
  unfold sanitize
  rw [List.filterMap_map]
  rfl

theorem is_available_of_qty_entry {r : List (String × JVal)} {q : ℚ}
    (hg : pyGet r "quantidade" = some (JVal.jfloat q)) (hq : 0 < q) :
    is_available r = true := by
  unfold is_available has_positive_qty
  rw [List.any_eq_true]
  refine ⟨"quantidade", by decide, ?_⟩
  rw [hg]
  exact decide_eq_true hq

end HttpTools

namespace HttpTools

/-! ### Scorer lemmas -/

theorem foldl_addIf {α : Type} (p : α → Prop) [DecidablePred p] (c : ℚ) (l : List α) :
    ∀ a : ℚ, l.foldl (fun sc x => if p x then sc + c else sc) a
      = a + c * (l.countP fun x => decide (p x)) := by
  induction l with
  | nil => intro a; simp
  | cons x xs ih =>
      intro a
      rw [List.foldl_cons, List.countP_cons]
      by_cases hp : p x
      · rw [if_pos hp, ih (a + c)]
        simp only [hp, decide_eq_true_eq, if_true]
        push_cast
        ring
      · rw [if_neg hp, ih a]
        simp only [hp, decide_eq_true_eq, if_false]
        push_cast
        ring

/-- Number of (nonempty) query tokens occurring in the normalised name. -/
def tokenHits (q n : String) : Nat :=
  (wordRuns (normTxt q).toList).countP fun tok =>
    decide (tok ≠ "" ∧ strIn tok (normTxt n) = true)

/-- Number of quantity tokens of the query occurring in the normalised name. -/
def qtyHits (q n : String) : Nat :=
  (qtyTokens (normTxt q).toList).countP fun m => decide (strIn m (normTxt n) = true)

theorem score_closed {q n : String} (hn : ¬ n = "") :
    score q (some n) = (tokenHits q n : ℚ) + 3 / 2 * (qtyHits q n : ℚ) := by
  show (if n = "" then (0 : ℚ) else
    (qtyTokens (normTxt q).toList).foldl
      (fun sc m => if strIn m (normTxt n) then sc + 3 / 2 else sc)
      ((wordRuns (normTxt q).toList).foldl
        (fun sc tok => if tok ≠ "" ∧ strIn tok (normTxt n) then sc + 1 else sc) (0 : ℚ)))
    = (tokenHits q n : ℚ) + 3 / 2 * (qtyHits q n : ℚ)
  rw [if_neg hn]
  rw [foldl_addIf (fun tok => tok ≠ "" ∧ strIn tok (normTxt n) = true) 1]
  rw [foldl_addIf (fun m => strIn m (normTxt n) = true) (3 / 2)]
  unfold tokenHits qtyHits
  ring

theorem score_zero_or_ge_one (q : String) (nome : Option String) :
    score q nome = 0 ∨ 1 ≤ score q nome := by
  cases nome with
  | none => exact Or.inl rfl
  | some n =>
      by_cases hn : n = ""
      · subst hn
        exact Or.inl rfl
      · rw [score_closed hn]
        rcases Nat.eq_zero_or_pos (tokenHits q n) with h1 | h1
        · rcases Nat.eq_zero_or_pos (qtyHits q n) with h2 | h2
          · left
            rw [h1, h2]
            norm_num
          · right
            have hc : (1 : ℚ) ≤ (qtyHits q n : ℚ) := by exact_mod_cast h2
            have hc2 : (0 : ℚ) ≤ (tokenHits q n : ℚ) := Nat.cast_nonneg _
            linarith
        · right
          have hc : (1 : ℚ) ≤ (tokenHits q n : ℚ) := by exact_mod_cast h1
          have hc2 : (0 : ℚ) ≤ (qtyHits q n : ℚ) := Nat.cast_nonneg _
          linarith

/-! ### Stable-sort lemmas -/

theorem sortDesc_cons {a : EPair × ℚ} {l : List (EPair × ℚ)} :
    sortDesc (a :: l) = insertDesc a (sortDesc l) := rfl

theorem mem_insertDesc {x y : EPair × ℚ} {l : List (EPair × ℚ)} :
    y ∈ insertDesc x l ↔ y = x ∨ y ∈ l := by
  induction l with
  | nil => simp [insertDesc]
  | cons a rest ih =>
      unfold insertDesc
      by_cases h : a.2 ≤ x.2
      · rw [if_pos h]
        simp [List.mem_cons]
      · rw [if_neg h]
        simp only [List.mem_cons, ih]
        tauto

theorem mem_sortDesc {l : List (EPair × ℚ)} {y : EPair × ℚ} :
    y ∈ sortDesc l ↔ y ∈ l := by
  induction l with
  | nil => simp [sortDesc]
  | cons a rest ih =>
      rw [sortDesc_cons, mem_insertDesc, ih]
      simp [List.mem_cons]

theorem pairwise_insertDesc {x : EPair × ℚ} {l : List (EPair × ℚ)}
    (h : List.Pairwise (fun a b => b.2 ≤ a.2) l) :
    List.Pairwise (fun a b => b.2 ≤ a.2) (insertDesc x l) := by
  induction l with
  | nil => simp [insertDesc]
  | cons a rest ih =>
      unfold insertDesc
      obtain ⟨ha, hrest⟩ := List.pairwise_cons.mp h
      by_cases hc : a.2 ≤ x.2
      · rw [if_pos hc]
        refine List.Pairwise.cons ?_ h
        intro y hy
        rcases List.mem_cons.mp hy with h1 | h2
        · rw [h1]
          exact hc
        · exact le_trans (ha y h2) hc
      · rw [if_neg hc]
        refine List.Pairwise.cons ?_ (ih hrest)
        intro y hy
        rcases mem_insertDesc.mp hy with h1 | h2
        · rw [h1]
          exact le_of_lt (lt_of_not_le hc)
        · exact ha y h2

theorem pairwise_sortDesc {l : List (EPair × ℚ)} :
    List.Pairwise (fun (a b : EPair × ℚ) => b.2 ≤ a.2) (sortDesc l) := by
  induction l with
  | nil => simp [sortDesc]
  | cons a rest ih =>
      rw [sortDesc_cons]
      exact pairwise_insertDesc ih

theorem sortDesc_eq_self_of_zero {l : List (EPair × ℚ)} (h : ∀ x ∈ l, x.2 = 0) :
    sortDesc l = l := by
  induction l with
  | nil => rfl
  | cons a rest ih =>
      rw [sortDesc_cons, ih fun x hx => h x (List.mem_cons_of_mem _ hx)]
      cases rest with
      | nil => rfl
      | cons b rest2 =>
          have hb : b.2 ≤ a.2 := by
            rw [h b (by simp), h a (by simp)]
          unfold insertDesc
          rw [if_pos hb]

theorem scoredOf_snd {q : String} {pairs : List EPair} {x : EPair × ℚ}
    (hx : x ∈ scoredOf q pairs) : x.2 = score q x.1.2 := by
  obtain ⟨pn, hpn, he⟩ := List.mem_map.mp hx
  rw [← he]

theorem sortDesc_scoredOf_no_relevant {q : String} {pairs : List EPair}
    (h : topRelevant q pairs = []) :
    sortDesc (scoredOf q pairs) = scoredOf q pairs := by
  apply sortDesc_eq_self_of_zero
  intro x hx
  unfold topRelevant at h
  rw [List.take_eq_nil_iff] at h
  rcases h with h3 | h
  · exact absurd h3 (by decide)
  · rw [List.map_eq_nil_iff] at h
    rw [List.filter_eq_nil_iff] at h
    have hmem : x ∈ sortDesc (scoredOf q pairs) := mem_sortDesc.mpr hx
    have hlt := h x hmem
    have hxs : x.2 = score q x.1.2 := scoredOf_snd hx
    rcases score_zero_or_ge_one q x.1.2 with h0 | h1
    · rw [hxs, h0]
    · exfalso
      apply hlt
      rw [← hxs] at h1
      simpa using h1

end HttpTools


namespace HttpTools

/-! ### Claim C1 -/

/-- C1: a raw stock record is included in the normalised output of
`estoque_preco` iff it has at least one recognised quantity-alias key whose
value parses to a number strictly greater than 0; the status-keyword detector
plays no role (a record whose `situacao` says "disponivel" but whose only
quantity is 0 is excluded); a record with quantity 5 is included and one with
quantity 0, or with no quantity alias at all, is excluded. -/
theorem c1_availability_gate :
    (∀ d : List (String × JVal), is_available d = true ↔
      ∃ k ∈ STOCK_QTY_KEYS, ∃ v, pyGet d k = some v ∧
        ∃ n, qty_parse v = some n ∧ 0 < n) ∧
    sanitize [JVal.jobj [("produto", JVal.jstr "X"), ("qtd", JVal.jint 5)]] =
      [cleanRecord [("produto", JVal.jstr "X"), ("qtd", JVal.jint 5)]] ∧
    sanitize [JVal.jobj [("produto", JVal.jstr "X"), ("qtd", JVal.jint 0)]] = [] ∧
    sanitize [JVal.jobj [("produto", JVal.jstr "X")]] = [] ∧
    status_available [("situacao", JVal.jstr "disponivel"), ("qtd", JVal.jint 0)] = true ∧
    sanitize [JVal.jobj [("situacao", JVal.jstr "disponivel"), ("qtd", JVal.jint 0)]] = [] := by
  refine ⟨?_, rfl, rfl, rfl, rfl, rfl⟩
  intro d
  unfold is_available has_positive_qty
  rw [List.any_eq_true]
  constructor
  · rintro ⟨k, hk, hpk⟩
    refine ⟨k, hk, ?_⟩
    cases hg : pyGet d k with
    | none =>
        rw [hg] at hpk
        simp at hpk
    | some v =>
        cases hq : qty_parse v with
        | none =>
            rw [hg] at hpk
            simp only [Option.some_bind] at hpk
            rw [hq] at hpk
            simp at hpk
        | some n =>
            refine ⟨v, rfl, n, hq, ?_⟩
            rw [hg] at hpk
            simp only [Option.some_bind] at hpk
            rw [hq] at hpk
            simpa using hpk
  · rintro ⟨k, hk, v, hv, n, hn, hpos⟩
    refine ⟨k, hk, ?_⟩
    rw [hv]
    simp only [Option.some_bind]
    rw [hn]
    exact decide_eq_true hpos

/-! ### Claim C2 -/

/-- C2 counterexample: the price parser maps `"1.234,56"` to no value at all,
not to `1234.56` — the thousands-separator branch fires only when the string
has MORE than one dot, so the comma is turned into a second dot and `float`
rejects the result. -/
theorem c2_counterexample : parse_float (JVal.jstr "1.234,56") = none := rfl

/-- C2 amended: `"12,50"` → 12.50 and `"12.50"` → 12.50 as claimed, but
`"1.234,56"` parses to nothing (the heuristic demands more than one dot for
the thousands-separator treatment); a string such as `"1.234.567,89"`, with
two dots and one comma, does get the claimed treatment. -/
theorem c2_price_parsing_amended :
    parse_float (JVal.jstr "12,50") = some (25 / 2) ∧
    parse_float (JVal.jstr "12.50") = some (25 / 2) ∧
    parse_float (JVal.jstr "1.234,56") = none ∧
    parse_float (JVal.jstr "1.234.567,89") = some (123456789 / 100) := by
  refine ⟨?_, ?_, rfl, ?_⟩
  · rw [show parse_float (JVal.jstr "12,50") =
        some (1 * ((12 : ℚ) + (50 : ℚ) / 10 ^ 2)) from rfl]
    norm_num
  · rw [show parse_float (JVal.jstr "12.50") =
        some (1 * ((12 : ℚ) + (50 : ℚ) / 10 ^ 2)) from rfl]
    norm_num
  · rw [show parse_float (JVal.jstr "1.234.567,89") =
        some (1 * ((1234567 : ℚ) + (89 : ℚ) / 10 ^ 2)) from rfl]
    norm_num

/-! ### Claim C4 -/

/-- C4: the relevance score adds 1.0 per tokenized query token occurring as a
substring of the accent-folded lowercased name and 1.5 per quantity token of
the query occurring in it; a candidate with no (or empty) name scores 0; and
`score("refrigerante 2l", "Refrigerante Cola 2L") = 3.5 > 1 =
score("refrigerante", "Refrigerante Cola 2L")`. -/
theorem c4_score_law :
    (∀ q : String, score q none = 0) ∧
    (∀ q : String, score q (some "") = 0) ∧
    (∀ q n : String, ¬ n = "" →
      score q (some n) = (tokenHits q n : ℚ) + 3 / 2 * (qtyHits q n : ℚ)) ∧
    score "refrigerante 2l" (some "Refrigerante Cola 2L") = 7 / 2 ∧
    score "refrigerante" (some "Refrigerante Cola 2L") = 1 ∧
    score "refrigerante" (some "Refrigerante Cola 2L") <
      score "refrigerante 2l" (some "Refrigerante Cola 2L") := by
  have h4 : score "refrigerante 2l" (some "Refrigerante Cola 2L") = 7 / 2 := by
    rw [score_closed (by decide),
        show tokenHits "refrigerante 2l" "Refrigerante Cola 2L" = 2 from by decide,
        show qtyHits "refrigerante 2l" "Refrigerante Cola 2L" = 1 from by decide]
    norm_num
  have h5 : score "refrigerante" (some "Refrigerante Cola 2L") = 1 := by
    rw [score_closed (by decide),
        show tokenHits "refrigerante" "Refrigerante Cola 2L" = 1 from by decide,
        show qtyHits "refrigerante" "Refrigerante Cola 2L" = 0 from by decide]
    norm_num
  refine ⟨fun q => rfl, fun q => rfl, fun q n hn => score_closed hn, h4, h5, ?_⟩
  rw [h4, h5]
  norm_num

/-- Witness for C4: the closed-form clause applied at a concrete name. -/
theorem c4_score_law_witness :
    ¬ "Arroz" = "" ∧
    score "arroz" (some "Arroz") =
      (tokenHits "arroz" "Arroz" : ℚ) + 3 / 2 * (qtyHits "arroz" "Arroz" : ℚ) :=
  ⟨by decide, c4_score_law.2.2.1 "arroz" "Arroz" (by decide)⟩

end HttpTools

namespace HttpTools

/-! ### Claim C3 -/

theorem take_three_len {α : Type} (l : List α) : (l.take 3).length ≤ 3 := by
  rw [List.length_take]
  exact min_le_left _ _

/-- C3: the ranker of `ean_lookup` (on both the JSON and the raw-text path)
selects at most 3 pairs: the score-≥-1 candidates sorted descending by score
and truncated to 3 when that set is non-empty, and otherwise the first 3
candidate pairs in original extraction order — the JSON path's score-sorted
fallback coincides with extraction order because every score below 1.0 is
exactly 0 and the sort is stable. -/
theorem c3_ranker (q : String) (pairs : List EPair) :
    (usedPairsJson q pairs).length ≤ 3 ∧
    usedPairsText q pairs = usedPairsJson q pairs ∧
    usedPairsJson q pairs =
      (if topRelevant q pairs = [] then pairs.take 3 else topRelevant q pairs) ∧
    (∀ p ∈ topRelevant q pairs, 1 ≤ score q p.2) ∧
    List.Pairwise (fun a b : EPair => score q b.2 ≤ score q a.2) (topRelevant q pairs) := by
  have hmapfst : (scoredOf q pairs).map Prod.fst = pairs := by
    unfold scoredOf
    rw [List.map_map]
    rw [show (Prod.fst ∘ fun pn : EPair => (pn, score q pn.2)) = id from rfl, List.map_id]
  have hfb : topRelevant q pairs = [] → orderedPairs q pairs = pairs := by
    intro h
    unfold orderedPairs
    rw [sortDesc_scoredOf_no_relevant h, hmapfst]
  refine ⟨?_, ?_, ?_, ?_, ?_⟩
  · unfold usedPairsJson
    by_cases ht : topRelevant q pairs = []
    · rw [if_pos ht]
      exact take_three_len _
    · rw [if_neg ht]
      unfold topRelevant
      exact take_three_len _
  · unfold usedPairsText usedPairsJson
    by_cases ht : topRelevant q pairs = []
    · rw [if_pos ht, if_pos ht]
      unfold orderedPairs
      rw [sortDesc_scoredOf_no_relevant ht]
    · rw [if_neg ht, if_neg ht]
  · unfold usedPairsJson
    by_cases ht : topRelevant q pairs = []
    · rw [if_pos ht, if_pos ht, hfb ht]
    · rw [if_neg ht, if_neg ht]
  · intro p hp
    unfold topRelevant at hp
    have hp2 := (List.take_sublist _ _).subset hp
    obtain ⟨x, hxf, he⟩ := List.mem_map.mp hp2
    have hge := List.of_mem_filter hxf
    have hxm : x ∈ scoredOf q pairs := mem_sortDesc.mp (List.mem_of_mem_filter hxf)
    have hxs : x.2 = score q x.1.2 := scoredOf_snd hxm
    rw [← he, ← hxs]
    simpa using hge
  · have h1 : List.Pairwise (fun a b : EPair × ℚ => b.2 ≤ a.2)
        (sortDesc (scoredOf q pairs)) := pairwise_sortDesc
    have h2 : List.Pairwise (fun a b : EPair × ℚ => b.2 ≤ a.2)
        ((sortDesc (scoredOf q pairs)).filter fun x => (1 : ℚ) ≤ x.2) :=
      List.Pairwise.sublist (List.filter_sublist _) h1
    have h3 : List.Pairwise
        (fun a b : EPair × ℚ => score q b.1.2 ≤ score q a.1.2)
        ((sortDesc (scoredOf q pairs)).filter fun x => (1 : ℚ) ≤ x.2) := by
      refine List.Pairwise.imp_of_mem ?_ h2
      intro a b ha hb hr
      have hams : a ∈ scoredOf q pairs := mem_sortDesc.mp (List.mem_of_mem_filter ha)
      have hbms : b ∈ scoredOf q pairs := mem_sortDesc.mp (List.mem_of_mem_filter hb)
      rw [← scoredOf_snd hams, ← scoredOf_snd hbms]
      exact hr
    have h4 : List.Pairwise (fun a b : EPair => score q b.2 ≤ score q a.2)
        (((sortDesc (scoredOf q pairs)).filter fun x => (1 : ℚ) ≤ x.2).map Prod.fst) :=
      List.pairwise_map.mpr h3
    exact List.Pairwise.sublist (List.take_sublist _ _) h4

end HttpTools

namespace HttpTools

/-! ### Regex-scan lemmas -/

theorem stringMk_ne_empty {l : List Char} (h : l ≠ []) : String.mk l ≠ "" := by
  intro he
  apply h
  have h2 := congrArg String.data he
  simpa using h2

theorem tryEanAt_ne {cs : List Char} {cap : String} {rest : List Char}
    (h : tryEanAt cs = some (cap, rest)) : cap ≠ "" := by
  unfold tryEanAt at h
  split at h
  · cases h
  · split at h
    · split at h
      · cases h
      · have h3 : String.mk _ = cap := congrArg Prod.fst (Option.some_inj.mp h)
        rw [← h3]
        exact stringMk_ne_empty (by simp)
    · cases h

theorem tryNameAt_ne {cs : List Char} {cap : String} {rest : List Char}
    (h : tryNameAt cs = some (cap, rest)) : cap ≠ "" := by
  unfold tryNameAt at h
  split at h
  · cases h
  · split at h
    · split at h
      · split at h
        · cases h
        · split at h
          · have h3 : String.mk _ = cap := congrArg Prod.fst (Option.some_inj.mp h)
            rw [← h3]
            exact stringMk_ne_empty (by simp)
          · cases h
      · cases h
    · cases h

theorem scanAux_ne {tryAt : List Char → Option (String × List Char)}
    (hne : ∀ cs cap rest, tryAt cs = some (cap, rest) → cap ≠ "") :
    ∀ (fuel : Nat) (cs : List Char), ∀ s ∈ scanAux tryAt fuel cs, s ≠ "" := by
  intro fuel
  induction fuel with
  | zero =>
      intro cs s hs
      simp [scanAux] at hs
  | succ m ih =>
      intro cs s hs
      cases cs with
      | nil => simp [scanAux] at hs
      | cons c rest =>
          unfold scanAux at hs
          cases ht : tryAt (c :: rest) with
          | some pr =>
              obtain ⟨cap, rest2⟩ := pr
              rw [ht] at hs
              rcases List.mem_cons.mp hs with h1 | h2
              · rw [h1]
                exact hne _ _ _ ht
              · exact ih rest2 s h2
          | none =>
              rw [ht] at hs
              exact ih rest s hs

theorem scanEans_ne {t : String} : ∀ s ∈ scanEans t, s ≠ "" :=
  scanAux_ne (fun _ _ _ h => tryEanAt_ne h) _ _

theorem scanNames_ne {t : String} : ∀ s ∈ scanNames t, s ≠ "" :=
  scanAux_ne (fun _ _ _ h => tryNameAt_ne h) _ _

/-! ### Claim C7 -/

/-- C7: `_extract_pairs_from_text` returns at most 50 pairs; it pairs the
regex-found EAN list and name list positionally by index up to the
source's `limit` bound capped at 50; with both lists non-empty it emits
exactly the shorter count of complete pairs (capped at 50); with one list
empty it emits half-pairs up to the longer count (capped at 50). -/
theorem c7_pairing (text : String) :
    (extract_pairs_from_text text).length ≤ 50 ∧
    extract_pairs_from_text text =
      (List.range (min (if min (scanEans text).length (scanNames text).length = 0
        then max (scanEans text).length (scanNames text).length
        else min (scanEans text).length (scanNames text).length) 50)).map
        (fun i => ((scanEans text).get? i, (scanNames text).get? i)) ∧
    (scanEans text ≠ [] → scanNames text ≠ [] →
      (extract_pairs_from_text text).length =
        min (min (scanEans text).length (scanNames text).length) 50 ∧
      ∀ i < (extract_pairs_from_text text).length,
        (((scanEans text).get? i).isSome ∧ ((scanNames text).get? i).isSome)) ∧
    (scanNames text = [] →
      extract_pairs_from_text text =
        (List.range (min (scanEans text).length 50)).map
          fun i => ((scanEans text).get? i, none)) ∧
    (scanEans text = [] →
      extract_pairs_from_text text =
        (List.range (min (scanNames text).length 50)).map
          fun i => (none, (scanNames text).get? i)) := by
  have hEne : ∀ s ∈ scanEans text, s ≠ "" := scanEans_ne
  have hNne : ∀ s ∈ scanNames text, s ≠ "" := scanNames_ne
  have hmain : extract_pairs_from_text text =
      (List.range (min (if min (scanEans text).length (scanNames text).length = 0
        then max (scanEans text).length (scanNames text).length
        else min (scanEans text).length (scanNames text).length) 50)).map
        (fun i => ((scanEans text).get? i, (scanNames text).get? i)) := by
    unfold extract_pairs_from_text
    apply filterMap_range_eq_map
    intro i hi
    show (if pyTruthy ((scanEans text).get? i) || pyTruthy ((scanNames text).get? i)
        then some ((scanEans text).get? i, (scanNames text).get? i) else none)
      = some ((scanEans text).get? i, (scanNames text).get? i)
    have hi2 : i < (if min (scanEans text).length (scanNames text).length = 0
        then max (scanEans text).length (scanNames text).length
        else min (scanEans text).length (scanNames text).length) :=
      lt_of_lt_of_le hi (min_le_left _ _)
    have hcond : (pyTruthy ((scanEans text).get? i) ||
        pyTruthy ((scanNames text).get? i)) = true := by
      by_cases hmn : min (scanEans text).length (scanNames text).length = 0
      · rw [if_pos hmn] at hi2
        rcases Nat.min_eq_zero_iff.mp hmn with h0 | h0
        · have hiN : i < (scanNames text).length := by omega
          cases hg : (scanNames text).get? i with
          | none =>
              rw [List.get?_eq_none] at hg
              omega
          | some s =>
              have hs := hNne s (List.get?_mem hg)
              simp [pyTruthy, hs]
        · have hiE : i < (scanEans text).length := by omega
          cases hg : (scanEans text).get? i with
          | none =>
              rw [List.get?_eq_none] at hg
              omega
          | some s =>
              have hs := hEne s (List.get?_mem hg)
              simp [pyTruthy, hs]
      · rw [if_neg hmn] at hi2
        have hiE : i < (scanEans text).length := by omega
        cases hg : (scanEans text).get? i with
        | none =>
            rw [List.get?_eq_none] at hg
            omega
        | some s =>
            have hs := hEne s (List.get?_mem hg)
            simp [pyTruthy, hs]
    rw [if_pos hcond]
  refine ⟨?_, hmain, ?_, ?_, ?_⟩
  · rw [hmain, List.length_map, List.length_range]
    exact min_le_right _ _
  · intro hEn hNn
    have hE0 : 0 < (scanEans text).length := List.length_pos.mpr hEn
    have hN0 : 0 < (scanNames text).length := List.length_pos.mpr hNn
    have hmn : ¬ min (scanEans text).length (scanNames text).length = 0 := by omega
    constructor
    · rw [hmain, List.length_map, List.length_range, if_neg hmn]
    · intro i hilen
      rw [hmain, List.length_map, List.length_range, if_neg hmn] at hilen
      constructor
      · cases hg : (scanEans text).get? i with
        | none =>
            rw [List.get?_eq_none] at hg
            omega
        | some s => rfl
      · cases hg : (scanNames text).get? i with
        | none =>
            rw [List.get?_eq_none] at hg
            omega
        | some s => rfl
  · intro h0
    have h0l : (scanNames text).length = 0 := by rw [h0]; rfl
    have hc : min (scanEans text).length (scanNames text).length = 0 := by omega
    have hm : max (scanEans text).length (scanNames text).length =
        (scanEans text).length := by omega
    rw [hmain, if_pos hc, hm]
    apply List.map_congr_left
    intro i hi
    rw [h0]
    rfl
  · intro h0
    have h0l : (scanEans text).length = 0 := by rw [h0]; rfl
    have hc : min (scanEans text).length (scanNames text).length = 0 := by omega
    have hm : max (scanEans text).length (scanNames text).length =
        (scanNames text).length := by omega
    rw [hmain, if_pos hc, hm]
    apply List.map_congr_left
    intro i hi
    rw [h0]
    rfl

set_option maxRecDepth 8000 in
/-- Witness for C7 at concrete inputs: two EANs and one name yield one
complete pair; names absent yield code-only half-pairs. -/
theorem c7_pairing_witness :
    scanEans "\"codigo_ean\": 111 \"codigo_ean\": 222 \"produto\": \"A\"" ≠ [] ∧
    scanNames "\"codigo_ean\": 111 \"codigo_ean\": 222 \"produto\": \"A\"" ≠ [] ∧
    (extract_pairs_from_text "\"codigo_ean\": 111 \"codigo_ean\": 222 \"produto\": \"A\"").length =
      min (min (scanEans "\"codigo_ean\": 111 \"codigo_ean\": 222 \"produto\": \"A\"").length
        (scanNames "\"codigo_ean\": 111 \"codigo_ean\": 222 \"produto\": \"A\"").length) 50 ∧
    scanNames "\"codigo_ean\": 111 \"codigo_ean\": 222" = [] ∧
    extract_pairs_from_text "\"codigo_ean\": 111 \"codigo_ean\": 222" =
      (List.range (min (scanEans "\"codigo_ean\": 111 \"codigo_ean\": 222").length 50)).map
        (fun i => ((scanEans "\"codigo_ean\": 111 \"codigo_ean\": 222").get? i, none)) :=
  ⟨by decide, by decide,
   ((c7_pairing "\"codigo_ean\": 111 \"codigo_ean\": 222 \"produto\": \"A\"").2.2.1
      (by decide) (by decide)).1,
   by decide,
   (c7_pairing "\"codigo_ean\": 111 \"codigo_ean\": 222").2.2.2.1 (by decide)⟩

/-! ### Claim C10 -/

theorem isSome_of_pyTruthy {o : Option String} (h : pyTruthy o = true) : o.isSome := by
  cases o with
  | none => simp [pyTruthy] at h
  | some s => rfl

/-- C10: every candidate pair emitted by the structured walker's `try_obj` or
by the regex text scan has at least one of its two fields present; a pair with
both fields absent is never produced. -/
theorem c10_pair_presence :
    (∀ (d : List (String × JVal)) (p : EPair),
      try_obj d = some p → p.1.isSome ∨ p.2.isSome) ∧
    (∀ (text : String) (p : EPair),
      p ∈ extract_pairs_from_text text → p.1.isSome ∨ p.2.isSome) := by
  constructor
  · intro d p h
    unfold try_obj at h
    by_cases hc : (pyTruthy (tryObjEan d) || pyTruthy (tryObjName d)) = true
    · rw [if_pos hc] at h
      have hp : (tryObjEan d, tryObjName d) = p := Option.some_inj.mp h
      simp only [Bool.or_eq_true] at hc
      rcases hc with h1 | h1
      · left
        rw [← hp]
        exact isSome_of_pyTruthy h1
      · right
        rw [← hp]
        exact isSome_of_pyTruthy h1
    · rw [if_neg hc] at h
      cases h
  · intro text p h
    unfold extract_pairs_from_text at h
    obtain ⟨i, hi, hsome⟩ := List.mem_filterMap.mp h
    have hsome2 : (if pyTruthy ((scanEans text).get? i) || pyTruthy ((scanNames text).get? i)
        then some ((scanEans text).get? i, (scanNames text).get? i) else none) = some p := hsome
    by_cases hc : (pyTruthy ((scanEans text).get? i) ||
        pyTruthy ((scanNames text).get? i)) = true
    · rw [if_pos hc] at hsome2
      have hp : ((scanEans text).get? i, (scanNames text).get? i) = p :=
        Option.some_inj.mp hsome2
      simp only [Bool.or_eq_true] at hc
      rcases hc with h1 | h1
      · left
        rw [← hp]
        exact isSome_of_pyTruthy h1
      · right
        rw [← hp]
        exact isSome_of_pyTruthy h1
    · rw [if_neg hc] at hsome2
      cases hsome2

set_option maxRecDepth 8000 in
/-- Witness for C10 at concrete inputs on both extraction paths. -/
theorem c10_pair_presence_witness :
    (((some "789", none) : EPair).1.isSome ∨ ((some "789", none) : EPair).2.isSome) ∧
    (((some "111", none) : EPair).1.isSome ∨ ((some "111", none) : EPair).2.isSome) :=
  ⟨c10_pair_presence.1 [("ean", JVal.jint 789)] (some "789", none) (by decide),
   c10_pair_presence.2 "\"codigo_ean\": 111" (some "111", none) (by decide)⟩

end HttpTools

namespace HttpTools

set_option maxRecDepth 8000 in
/-- Witness for C3 at a concrete query and candidate list: the relevant
candidate is selected and its score is at least 1. -/
theorem c3_ranker_witness :
    ((some "2", some "arroz tipo 1") : EPair) ∈
      topRelevant "arroz" [(some "1", some "feijao"), (some "2", some "arroz tipo 1")] ∧
    1 ≤ score "arroz" ((some "2", some "arroz tipo 1") : EPair).2 := by
  have hs1 : score "arroz" (some "feijao") = 0 := by
    rw [score_closed (by decide),
        show tokenHits "arroz" "feijao" = 0 from by decide,
        show qtyHits "arroz" "feijao" = 0 from by decide]
    norm_num
  have hs2 : score "arroz" (some "arroz tipo 1") = 1 := by
    rw [score_closed (by decide),
        show tokenHits "arroz" "arroz tipo 1" = 1 from by decide,
        show qtyHits "arroz" "arroz tipo 1" = 0 from by decide]
    norm_num
  have htop : topRelevant "arroz" [(some "1", some "feijao"), (some "2", some "arroz tipo 1")] =
      [((some "2" : Option String), some "arroz tipo 1")] := by
    norm_num [topRelevant, scoredOf, sortDesc, insertDesc, hs1, hs2]
  have hm : ((some "2", some "arroz tipo 1") : EPair) ∈
      topRelevant "arroz" [(some "1", some "feijao"), (some "2", some "arroz tipo 1")] := by
    rw [htop]
    exact List.mem_singleton.mpr rfl
  exact ⟨hm, (c3_ranker "arroz" _).2.2.2.1 _ hm⟩

/-! ### Claim C5 -/

/-- The raw text of the claim's end-to-end example, with the EAN value quoted
exactly as the claim writes it. -/
def c5TextQuoted : String :=
  "resposta: \"codigo_ean\": \"7891149103300\", \"produto\": \"Arroz Branco 1kg\" ; \"codigo_ean\": \"7891149103300\", \"produto\": \"Arroz Branco 1kg\""

/-- The same raw text with the EAN value unquoted (a JSON number), which is
the shape the extraction regex actually matches. -/
def c5TextUnquoted : String :=
  "resposta: \"codigo_ean\": 7891149103300, \"produto\": \"Arroz Branco 1kg\" ; \"codigo_ean\": 7891149103300, \"produto\": \"Arroz Branco 1kg\""

set_option maxRecDepth 8000 in
/-- C5 counterexample: on the claim's raw text, whose `codigo_ean` value is
written in quotes, the EAN regex (which matches bare digits only) extracts no
code at all, so the summary lists the product name twice without any
(code, name) pair — not the claimed pair. -/
theorem c5_counterexample :
    scanEans c5TextQuoted = [] ∧
    usedPairsText "arroz 1kg" (extract_pairs_from_text c5TextQuoted) =
      [(none, some "Arroz Branco 1kg"), (none, some "Arroz Branco 1kg")] ∧
    format_summary (usedPairsText "arroz 1kg" (extract_pairs_from_text c5TextQuoted)) =
      some "EANS_ENCONTRADOS:\n1) Arroz Branco 1kg\n2) Arroz Branco 1kg" := by
  have hpairs : extract_pairs_from_text c5TextQuoted =
      [(none, some "Arroz Branco 1kg"), (none, some "Arroz Branco 1kg")] := by decide
  have hs : score "arroz 1kg" (some "Arroz Branco 1kg") = 7 / 2 := by
    rw [score_closed (by decide),
        show tokenHits "arroz 1kg" "Arroz Branco 1kg" = 2 from by decide,
        show qtyHits "arroz 1kg" "Arroz Branco 1kg" = 1 from by decide]
    norm_num
  have htop : topRelevant "arroz 1kg"
      [((none : Option String), some "Arroz Branco 1kg"), (none, some "Arroz Branco 1kg")] =
      [((none : Option String), some "Arroz Branco 1kg"), (none, some "Arroz Branco 1kg")] := by
    norm_num [topRelevant, scoredOf, sortDesc, insertDesc, hs]
  have hused : usedPairsText "arroz 1kg"
      [((none : Option String), some "Arroz Branco 1kg"), (none, some "Arroz Branco 1kg")] =
      [((none : Option String), some "Arroz Branco 1kg"), (none, some "Arroz Branco 1kg")] := by
    unfold usedPairsText
    rw [htop]
    simp
  refine ⟨by decide, ?_, ?_⟩
  · rw [hpairs, hused]
  · rw [hpairs, hused]
    decide

set_option maxRecDepth 8000 in
/-- C5 amended: with the EAN value quoted, as in the claim's fragment, the
digit-capturing pattern matches nothing and the claimed (EAN, name) pair
never forms; the `produto` pattern still matches, so (None, Arroz Branco 1kg)
half-pairs form, carry the `1kg` quantity bonus and rank first, and the reply
is a name-only summary followed by a blank line and the raw text — the EAN
digits never appear.  With the EAN value unquoted, the claimed behaviour
holds in full: the (7891149103300, Arroz Branco 1kg) pair is extracted twice,
scored 2 + 1.5 with the quantity bonus, ranked first and listed in the
summary. -/
theorem c5_text_path_amended :
    scanEans c5TextQuoted = [] ∧
    usedPairsText "arroz 1kg" (extract_pairs_from_text c5TextQuoted) =
      [(none, some "Arroz Branco 1kg"), (none, some "Arroz Branco 1kg")] ∧
    format_summary (usedPairsText "arroz 1kg" (extract_pairs_from_text c5TextQuoted)) =
      some "EANS_ENCONTRADOS:\n1) Arroz Branco 1kg\n2) Arroz Branco 1kg" ∧
    ean_lookup ⟨some "u", some "t", none, none⟩ "arroz 1kg"
        (NetResult.ok 200 none c5TextQuoted) =
      "EANS_ENCONTRADOS:\n1) Arroz Branco 1kg\n2) Arroz Branco 1kg" ++ "\n\n" ++
        c5TextQuoted ∧
    extract_pairs_from_text c5TextUnquoted =
      [(some "7891149103300", some "Arroz Branco 1kg"),
       (some "7891149103300", some "Arroz Branco 1kg")] ∧
    usedPairsText "arroz 1kg" (extract_pairs_from_text c5TextUnquoted) =
      [(some "7891149103300", some "Arroz Branco 1kg"),
       (some "7891149103300", some "Arroz Branco 1kg")] ∧
    (usedPairsText "arroz 1kg" (extract_pairs_from_text c5TextUnquoted)).head? =
      some (some "7891149103300", some "Arroz Branco 1kg") ∧
    score "arroz 1kg" (some "Arroz Branco 1kg") = 2 + 3 / 2 ∧
    format_summary (usedPairsText "arroz 1kg" (extract_pairs_from_text c5TextUnquoted)) =
      some "EANS_ENCONTRADOS:\n1) 7891149103300 - Arroz Branco 1kg\n2) 7891149103300 - Arroz Branco 1kg" := by
  have hpairs : extract_pairs_from_text c5TextUnquoted =
      [(some "7891149103300", some "Arroz Branco 1kg"),
       (some "7891149103300", some "Arroz Branco 1kg")] := by decide
  have hs : score "arroz 1kg" (some "Arroz Branco 1kg") = 7 / 2 := by
    rw [score_closed (by decide),
        show tokenHits "arroz 1kg" "Arroz Branco 1kg" = 2 from by decide,
        show qtyHits "arroz 1kg" "Arroz Branco 1kg" = 1 from by decide]
    norm_num
  have htop : topRelevant "arroz 1kg"
      [((some "7891149103300" : Option String), some "Arroz Branco 1kg"),
       (some "7891149103300", some "Arroz Branco 1kg")] =
      [((some "7891149103300" : Option String), some "Arroz Branco 1kg"),
       (some "7891149103300", some "Arroz Branco 1kg")] := by
    norm_num [topRelevant, scoredOf, sortDesc, insertDesc, hs]
  have hused : usedPairsText "arroz 1kg"
      [((some "7891149103300" : Option String), some "Arroz Branco 1kg"),
       (some "7891149103300", some "Arroz Branco 1kg")] =
      [((some "7891149103300" : Option String), some "Arroz Branco 1kg"),
       (some "7891149103300", some "Arroz Branco 1kg")] := by
    unfold usedPairsText
    rw [htop]
    simp
  have hpairsQ : extract_pairs_from_text c5TextQuoted =
      [(none, some "Arroz Branco 1kg"), (none, some "Arroz Branco 1kg")] := by decide
  have htopQ : topRelevant "arroz 1kg"
      [((none : Option String), some "Arroz Branco 1kg"), (none, some "Arroz Branco 1kg")] =
      [((none : Option String), some "Arroz Branco 1kg"), (none, some "Arroz Branco 1kg")] := by
    norm_num [topRelevant, scoredOf, sortDesc, insertDesc, hs]
  have husedQ : usedPairsText "arroz 1kg"
      [((none : Option String), some "Arroz Branco 1kg"), (none, some "Arroz Branco 1kg")] =
      [((none : Option String), some "Arroz Branco 1kg"), (none, some "Arroz Branco 1kg")] := by
    unfold usedPairsText
    rw [htopQ]
    simp
  have hfmtQ : format_summary
      (usedPairsText "arroz 1kg" (extract_pairs_from_text c5TextQuoted)) =
      some "EANS_ENCONTRADOS:\n1) Arroz Branco 1kg\n2) Arroz Branco 1kg" := by
    rw [hpairsQ, husedQ]
    decide
  have hfull : ean_lookup ⟨some "u", some "t", none, none⟩ "arroz 1kg"
      (NetResult.ok 200 none c5TextQuoted) =
      "EANS_ENCONTRADOS:\n1) Arroz Branco 1kg\n2) Arroz Branco 1kg" ++ "\n\n" ++
        c5TextQuoted := by
    have e1 : ean_lookup ⟨some "u", some "t", none, none⟩ "arroz 1kg"
        (NetResult.ok 200 none c5TextQuoted) =
        ean_lookup_body "arroz 1kg" (NetResult.ok 200 none c5TextQuoted) := by
      show (if (pyStrip (pyOr (some "u") "") = "" ∨
          pyStrip (pyOr (some "t") (pyOr none "")) = "")
          then "Erro: SMART_RESPONDER_URL/AUTH não configurados no .env"
          else ean_lookup_body "arroz 1kg" (NetResult.ok 200 none c5TextQuoted)) =
        ean_lookup_body "arroz 1kg" (NetResult.ok 200 none c5TextQuoted)
      rw [if_neg (by decide)]
    have e2 : ean_lookup_body "arroz 1kg" (NetResult.ok 200 none c5TextQuoted) =
        (match format_summary
            (usedPairsText "arroz 1kg" (extract_pairs_from_text c5TextQuoted)) with
         | some summary => summary ++ "\n\n" ++ c5TextQuoted
         | none => c5TextQuoted) := rfl
    rw [e1, e2, hfmtQ]
  refine ⟨by decide, ?_, hfmtQ, hfull, hpairs, ?_, ?_, ?_, ?_⟩
  · rw [hpairsQ, husedQ]
  · rw [hpairs, hused]
  · rw [hpairs, hused]
    rfl
  · rw [hs]
    norm_num
  · rw [hpairs, hused]
    decide

end HttpTools

namespace HttpTools

/-! ### Claim C9 -/

/-- C9: `ean_lookup` and `estoque_preco` are total `String`-valued functions
of their inputs in this model (every handler ends in a returned string, so no
exception escapes); with missing endpoint/credential configuration they return
the descriptive error string and the result does not depend on the network
outcome at all (the check happens before any request); and a malformed
numeric field is treated exactly like an absent field by both the price
extractor and the positive-quantity gate. -/
theorem c9_error_paths :
    (∀ (cfg : SmartCfg) (q : String) (net net' : NetResult),
      (pyStrip (pyOr cfg.url "") = "" ∨ pyStrip (pyOr cfg.auth (pyOr cfg.token "")) = "") →
      ean_lookup cfg q net = "Erro: SMART_RESPONDER_URL/AUTH não configurados no .env" ∧
      ean_lookup cfg q net = ean_lookup cfg q net') ∧
    (∀ (base : Option String) (e : String) (net net' : NetResult),
      rstripSlash (pyStrip (pyOr base "")) = "" →
      estoque_preco base e net = "Erro: ESTOQUE_EAN_BASE_URL não configurado no .env" ∧
      estoque_preco base e net = estoque_preco base e net') ∧
    (∀ (k : String) (v : JVal) (d : List (String × JVal)),
      parse_float v = none → pyGet d k = none →
      extract_price ((k, v) :: d) = extract_price d) ∧
    (∀ (k : String) (v : JVal) (d : List (String × JVal)),
      qty_parse v = none → pyGet d k = none →
      has_positive_qty ((k, v) :: d) = has_positive_qty d) := by
  refine ⟨?_, ?_, ?_, ?_⟩
  · intro cfg q net net' h
    have key : ∀ nn : NetResult, ean_lookup cfg q nn =
        "Erro: SMART_RESPONDER_URL/AUTH não configurados no .env" := by
      intro nn
      show (if (pyStrip (pyOr cfg.url "") = "" ∨
          pyStrip (pyOr cfg.auth (pyOr cfg.token "")) = "")
          then "Erro: SMART_RESPONDER_URL/AUTH não configurados no .env"
          else ean_lookup_body q nn) =
        "Erro: SMART_RESPONDER_URL/AUTH não configurados no .env"
      rw [if_pos h]
    exact ⟨key net, by rw [key net, key net']⟩
  · intro base e net net' h
    have key : ∀ nn : NetResult, estoque_preco base e nn =
        "Erro: ESTOQUE_EAN_BASE_URL não configurado no .env" := by
      intro nn
      show (if rstripSlash (pyStrip (pyOr base "")) = ""
          then "Erro: ESTOQUE_EAN_BASE_URL não configurado no .env"
          else if String.mk (e.toList.filter Char.isDigit) = ""
            then "Erro: EAN inválido. Informe apenas números."
            else estoque_preco_body nn) =
        "Erro: ESTOQUE_EAN_BASE_URL não configurado no .env"
      rw [if_pos h]
    exact ⟨key net, by rw [key net, key net']⟩
  · intro k v d hv hd
    unfold extract_price
    apply findSome?_congr_mem
    intro a ha
    by_cases hak : a = k
    · subst hak
      rw [show pyGet ((a, v) :: d) a = some v from by simp [pyGet], hd]
      simp [hv]
    · rw [show pyGet ((k, v) :: d) a = pyGet d a from by
        simp [pyGet, show ¬ k = a from fun he => hak he.symm]]
  · intro k v d hv hd
    unfold has_positive_qty
    apply any_congr_mem
    intro a ha
    by_cases hak : a = k
    · subst hak
      rw [show pyGet ((a, v) :: d) a = some v from by simp [pyGet], hd]
      simp [hv]
    · rw [show pyGet ((k, v) :: d) a = pyGet d a from by
        simp [pyGet, show ¬ k = a from fun he => hak he.symm]]

/-- Witness for C9: concrete missing-configuration calls return the error
strings, and concrete malformed numeric fields act as absent fields. -/
theorem c9_error_paths_witness :
    ean_lookup ⟨none, some "tok", none, none⟩ "arroz" NetResult.timeout =
      "Erro: SMART_RESPONDER_URL/AUTH não configurados no .env" ∧
    estoque_preco none "7891149103300" NetResult.timeout =
      "Erro: ESTOQUE_EAN_BASE_URL não configurado no .env" ∧
    extract_price [("vl_produto", JVal.jstr "caro")] = extract_price [] ∧
    has_positive_qty [("qtd", JVal.jstr "muitos")] = has_positive_qty [] :=
  ⟨(c9_error_paths.1 ⟨none, some "tok", none, none⟩ "arroz" NetResult.timeout
      NetResult.timeout (Or.inl rfl)).1,
   (c9_error_paths.2.1 none "7891149103300" NetResult.timeout NetResult.timeout rfl).1,
   c9_error_paths.2.2.1 "vl_produto" (JVal.jstr "caro") [] rfl rfl,
   c9_error_paths.2.2.2 "qtd" (JVal.jstr "muitos") [] rfl rfl⟩

/-! ### Claim C6 -/

/-- C6 counterexample: one normalisation pass over the record
`{estoque: 0, qtd: 7}` keeps the record (qtd is positive) but extracts
`quantidade = 0.0` (the first parseable alias in the modelled scan order is
`estoque`), and a second pass then drops the record entirely, so normalising
the normaliser's own output does not reproduce it.  (The source iterates a
Python set, whose order is unspecified; for any fixed order an input of this
shape — 0 under the first-scanned alias, positive under another — exists.) -/
theorem c6_counterexample :
    sanitize [JVal.jobj [("estoque", JVal.jint 0), ("qtd", JVal.jint 7)]] =
      [[("disponibilidade", JVal.jbool true), ("quantidade", JVal.jfloat 0)]] ∧
    sanitize ((sanitize [JVal.jobj [("estoque", JVal.jint 0), ("qtd", JVal.jint 7)]]).map
        JVal.jobj) = [] := by
  constructor
  · rfl
  · rfl

/-- C6 amended: a second normalisation pass reproduces the first pass's
output exactly — without crashing — provided every record of that output
carries `quantidade` greater than 0 (which holds whenever the quantity alias
the source extracts is the positive one, but can fail when an earlier-scanned
alias parses to 0 while a different alias is positive). -/
theorem c6_roundtrip_amended (items : List JVal)
    (h : ∀ r ∈ sanitize items, ∃ q, pyGet r "quantidade" = some (JVal.jfloat q) ∧ 0 < q) :
    sanitize ((sanitize items).map JVal.jobj) = sanitize items := by
  rw [sanitize_map_jobj]
  apply filterMap_eq_self_of
  intro r hr
  obtain ⟨q0, hgq, hq0⟩ := h r hr
  have havail : is_available r = true := is_available_of_qty_entry hgq hq0
  rw [if_pos havail]
  obtain ⟨d, hd, hda, hrd⟩ := mem_sanitize hr
  have hqs : (extract_qty d).isSome := extract_qty_isSome_of_available hda
  obtain ⟨q', hq'⟩ := Option.isSome_iff_exists.mp hqs
  rw [hrd, cleanRecord_cleanRecord hq']

/-- Witness for C6: the round-trip equation applied to a concrete payload
whose single record has a positive quantity. -/
theorem c6_roundtrip_amended_witness :
    sanitize ((sanitize [JVal.jobj [("produto", JVal.jstr "Arroz"), ("qtd", JVal.jint 5)]]).map
        JVal.jobj) =
      sanitize [JVal.jobj [("produto", JVal.jstr "Arroz"), ("qtd", JVal.jint 5)]] := by
  apply c6_roundtrip_amended
  intro r hr
  have hs : sanitize [JVal.jobj [("produto", JVal.jstr "Arroz"), ("qtd", JVal.jint 5)]] =
      [[("produto", JVal.jstr "Arroz"), ("disponibilidade", JVal.jbool true),
        ("quantidade", JVal.jfloat 5)]] := rfl
  rw [hs] at hr
  have hr2 : r = [("produto", JVal.jstr "Arroz"), ("disponibilidade", JVal.jbool true),
      ("quantidade", JVal.jfloat 5)] := by simpa using hr
  rw [hr2]
  exact ⟨5, rfl, by norm_num⟩

/-! ### Claim C8 -/

/-- C8 counterexample: the normaliser does not leave every non-quantity field
unchanged — the original `preco` field is overwritten with the parsed unified
price.  For `{preco: "caro", vl_produto: 10.0, qtd: 5}`, the kept record's
`preco` becomes the number 10.0, not the original string "caro". -/
theorem c8_counterexample :
    pyGet [("preco", JVal.jstr "caro"), ("vl_produto", JVal.jfloat 10), ("qtd", JVal.jint 5)]
      "preco" = some (JVal.jstr "caro") ∧
    STOCK_QTY_KEYS.contains "preco" = false ∧
    pyGet (cleanRecord
      [("preco", JVal.jstr "caro"), ("vl_produto", JVal.jfloat 10), ("qtd", JVal.jint 5)])
      "preco" = some (JVal.jfloat 10) ∧
    (JVal.jfloat 10 = JVal.jstr "caro" → False) := by
  refine ⟨rfl, rfl, rfl, fun h => JVal.noConfusion h⟩

/-- C8 amended: for every kept record, every original field whose key is
neither a quantity alias nor `preco` is preserved unchanged; `disponibilidade`
is set to `true` only when absent, and preserved verbatim otherwise; all
original quantity-alias fields are removed, though a unified `quantidade`
field is re-added whenever the quantity parses; and `preco` is overwritten
with the parsed unified price when one is found, and preserved otherwise. -/
theorem c8_frame_amended (d : List (String × JVal)) (k : String) (v w : JVal) (p : ℚ) :
    ((k, v) ∈ d → STOCK_QTY_KEYS.contains k = false → k ≠ "preco" →
      (k, v) ∈ cleanRecord d) ∧
    (pyGet d "disponibilidade" = some w →
      pyGet (cleanRecord d) "disponibilidade" = some w) ∧
    (pyGet d "disponibilidade" = none →
      pyGet (cleanRecord d) "disponibilidade" = some (JVal.jbool true)) ∧
    (STOCK_QTY_KEYS.contains k = true → k ≠ "quantidade" →
      pyGet (cleanRecord d) k = none) ∧
    pyGet (cleanRecord d) "quantidade" = (extract_qty d).map (fun q => JVal.jfloat q) ∧
    (extract_price d = some p → pyGet (cleanRecord d) "preco" = some (JVal.jfloat p)) ∧
    (extract_price d = none → pyGet (cleanRecord d) "preco" = pyGet d "preco") :=
  ⟨fun h1 h2 h3 => mem_cleanRecord h1 h2 h3,
   pyGet_cleanRecord_disp_some,
   pyGet_cleanRecord_disp_none,
   pyGet_cleanRecord_qtykey,
   pyGet_cleanRecord_quantidade,
   pyGet_cleanRecord_preco_some,
   pyGet_cleanRecord_preco_none⟩

/-- Witness for C8 at a concrete record, exercising each conditional clause. -/
theorem c8_frame_amended_witness :
    ("produto", JVal.jstr "X") ∈
      cleanRecord [("produto", JVal.jstr "X"), ("qtd", JVal.jint 5),
        ("vl_produto", JVal.jfloat 10)] ∧
    pyGet (cleanRecord [("produto", JVal.jstr "X"), ("qtd", JVal.jint 5),
        ("vl_produto", JVal.jfloat 10)]) "disponibilidade" = some (JVal.jbool true) ∧
    pyGet (cleanRecord [("produto", JVal.jstr "X"), ("qtd", JVal.jint 5),
        ("vl_produto", JVal.jfloat 10)]) "qtd" = none ∧
    pyGet (cleanRecord [("produto", JVal.jstr "X"), ("qtd", JVal.jint 5),
        ("vl_produto", JVal.jfloat 10)]) "preco" = some (JVal.jfloat 10) :=
  ⟨(c8_frame_amended _ "produto" (JVal.jstr "X") JVal.jnull 0).1
      (List.mem_cons_self _ _) rfl (by decide),
   (c8_frame_amended _ "x" JVal.jnull JVal.jnull 0).2.2.1 rfl,
   (c8_frame_amended _ "qtd" JVal.jnull JVal.jnull 0).2.2.2.1 rfl (by decide),
   (c8_frame_amended _ "x" JVal.jnull JVal.jnull 10).2.2.2.2.2.1 rfl⟩

end HttpTools
